import Mathlib

/-!
# Verification of the hcl-edit format-preserving HCL parser

This development shallowly embeds the parser of the `hcl-edit` crate
(`crates/hcl-edit/src/parser/{mod,expr,structure,context}.rs`) and settles the
claims of the specification against it.

The embedding works over `List Char` (the source is byte-oriented; all claim
inputs are ASCII, and the identifier classes extend to non-ASCII code points
the same way the source's `is_id_start`/`is_id_continue` do).  The winnow
parser combinators are modelled by functions `In → Res α` where `Res`
distinguishes winnow's `Backtrack` and `Cut` error modes.  Recursion in the
grammar is modelled by an explicit fuel parameter that every mutually
recursive parser decrements on entry; the public entry points supply fuel far
in excess of what any input can consume.

Modules of the crate that are not part of the provided sources
(`trivia.rs`, `string.rs`, `number.rs`, `repr.rs`, `state.rs`, `template.rs`,
the despan pass and the renderer) are modelled from the specification; each
such definition carries a doc comment saying so.
-/

/-! ## Spans, raw strings and decorations -/

/-- A half-open byte range into the original input (`Span` of the crate). -/
abbrev Span := Nat × Nat

/-- `RawString`: an un-interpreted byte range into the input or, after the
despan pass, an owned copy of the text. -/
inductive RawString where
  | fromSpan (lo hi : Nat)
  | owned (s : List Char)
deriving Repr, DecidableEq

/-- `Decor`: the trivia immediately before and after a node. -/
structure Decor where
  pre : Option RawString := none
  suf : Option RawString := none
deriving Repr, DecidableEq

/-- `Decorated<T>`: a value plus decor plus span. -/
structure D (α : Type) where
  v : α
  d : Decor := {}
  sp : Option Span := none
deriving Repr, DecidableEq

/-- `Spanned<T>`: a value plus span, no decor. -/
structure Sp (α : Type) where
  v : α
  sp : Option Span := none
deriving Repr, DecidableEq

abbrev Chars := List Char

def chars (s : String) : Chars := s.data

/-! ## Errors (modelled on `context.rs`, which is part of the sources) -/

/-- The `Expected` alternatives recorded in error context. -/
inductive Expected where
  | ch (c : Char)
  | lit (s : String)
  | desc (s : String)
deriving Repr, DecidableEq

/-- Error context entries (`Context` of `context.rs`). -/
inductive Ctx where
  | expression (s : String)
  | expected (e : Expected)
deriving Repr, DecidableEq

/-- A parse error: the absolute offset at which it was raised plus the
context chain. -/
structure Err where
  off : Nat
  ctx : List Ctx := []
deriving Repr, DecidableEq

/-! ## Parser model -/

/-- Remaining input plus the absolute offset of its first character
(winnow's `Located<&[u8]>`). -/
structure In where
  rest : Chars
  off : Nat
deriving Repr, DecidableEq

/-- Parse result: success with remaining input, or a backtrackable error, or
a committed (`cut`) error. -/
inductive Res (α : Type) where
  | ok (a : α) (i : In)
  | back (e : Err)
  | cut (e : Err)
deriving Repr, DecidableEq

/-- A parser. -/
def P (α : Type) := In → Res α

/-- Advance the input by `k` characters. -/
def In.adv (i : In) (k : Nat) : In := ⟨i.rest.drop k, i.off + k⟩

def pbind {α β : Type} (p : P α) (f : α → P β) : P β := fun i =>
  match p i with
  | .ok a i' => f a i'
  | .back e => .back e
  | .cut e => .cut e

def pmap {α β : Type} (f : α → β) (p : P α) : P β := fun i =>
  match p i with
  | .ok a i' => .ok (f a) i'
  | .back e => .back e
  | .cut e => .cut e

def ppure {α : Type} (a : α) : P α := fun i => .ok a i

/-- winnow `alt` of two parsers: the second runs only if the first failed
with a backtrackable error. -/
def palt {α : Type} (p q : P α) : P α := fun i =>
  match p i with
  | .back _ => q i
  | r => r

/-- winnow `cut_err`: convert a backtrackable error into a committed one. -/
def pcut {α : Type} (p : P α) : P α := fun i =>
  match p i with
  | .back e => .cut e
  | r => r

/-- winnow `.context(c)`: push a context entry onto any error. -/
def pctx {α : Type} (c : Ctx) (p : P α) : P α := fun i =>
  match p i with
  | .back e => .back { e with ctx := c :: e.ctx }
  | .cut e => .cut { e with ctx := c :: e.ctx }
  | r => r

/-- winnow `opt`: backtrackable failure becomes `none` without consuming. -/
def popt {α : Type} (p : P α) : P (Option α) := fun i =>
  match p i with
  | .ok a i' => .ok (some a) i'
  | .back _ => .ok none i
  | .cut e => .cut e

/-- winnow `peek`: run the parser but do not consume on success. -/
def ppeek {α : Type} (p : P α) : P α := fun i =>
  match p i with
  | .ok a _ => .ok a i
  | r => r

/-- winnow `not`: succeed (consuming nothing) iff the parser fails. -/
def pnot {α : Type} (p : P α) : P Unit := fun i =>
  match p i with
  | .ok _ _ => .back ⟨i.off, []⟩
  | _ => .ok () i

/-- winnow `fail`. -/
def pfail {α : Type} : P α := fun i => .back ⟨i.off, []⟩

/-- winnow `eof`: succeed iff no input remains. -/
def peof : P Unit := fun i =>
  match i.rest with
  | [] => .ok () i
  | _ => .back ⟨i.off, []⟩

/-- winnow `any`: consume one character. -/
def pany : P Char := fun i =>
  match i.rest with
  | c :: r => .ok c ⟨r, i.off + 1⟩
  | [] => .back ⟨i.off, []⟩

/-- A single expected character (a `char` used as a parser). -/
def pchar (c : Char) : P Char := fun i =>
  match i.rest with
  | c' :: r => if c' = c then .ok c ⟨r, i.off + 1⟩ else .back ⟨i.off, []⟩
  | [] => .back ⟨i.off, []⟩

/-- A literal tag (a `&str` used as a parser). -/
def ptag (s : Chars) : P Chars := fun i =>
  if s.isPrefixOf i.rest then .ok s (i.adv s.length) else .back ⟨i.off, []⟩

/-- winnow `one_of`: one character from a set. -/
def poneOf (s : Chars) : P Char := fun i =>
  match i.rest with
  | c :: r => if c ∈ s then .ok c ⟨r, i.off + 1⟩ else .back ⟨i.off, []⟩
  | [] => .back ⟨i.off, []⟩

/-- winnow `none_of`: one character not in the set. -/
def pnoneOf (s : Chars) : P Char := fun i =>
  match i.rest with
  | c :: r => if c ∈ s then .back ⟨i.off, []⟩ else .ok c ⟨r, i.off + 1⟩
  | [] => .back ⟨i.off, []⟩

/-- `.span()`: also yield the byte range the parser consumed. -/
def pspan {α : Type} (p : P α) : P (α × Span) := fun i =>
  match p i with
  | .ok a i' => .ok (a, (i.off, i'.off)) i'
  | .back e => .back e
  | .cut e => .cut e

/-- `.with_recognized()`: also yield the consumed characters. -/
def precognized {α : Type} (p : P α) : P (α × Chars) := fun i =>
  match p i with
  | .ok a i' => .ok (a, i.rest.take (i'.off - i.off)) i'
  | .back e => .back e
  | .cut e => .cut e

/-- `cut_char` from `context.rs`. -/
def cutChar (c : Char) : P Char :=
  pctx (.expected (.ch c)) (pcut (pchar c))

/-- `cut_tag` from `context.rs`. -/
def cutTag (s : String) : P Chars :=
  pctx (.expected (.lit s)) (pcut (ptag (chars s)))

/-! ## Trivia

Modelled from the spec: `trivia.rs` is not among the provided sources.
Per §4.1 a line comment starts at `#` or `//` and extends up to but not
including the next LF, and a block comment `/* … */` does not nest.  The
horizontal-trivia recognizer `sp` must absorb inline block comments (but not
line comments) so that both the expression driver's comment-stop rule (§4.3)
and the boundary case `a/*comment*/+b → a + b` (§8) hold; full whitespace
`ws` additionally absorbs LF, CR and line comments. -/

/-- Length of the rest of the current line (up to, not including, `\n`). -/
def tillNl : Chars → Nat
  | [] => 0
  | c :: r => if c = '\n' then 0 else 1 + tillNl r

/-- Length of a line comment (`#…` or `//…`) at the head, if any. -/
def lineCommentLen : Chars → Option Nat
  | '#' :: r => some (1 + tillNl r)
  | '/' :: '/' :: r => some (2 + tillNl r)
  | _ => none

/-- Length of the text up to and including a closing `*/`, if present. -/
def blockCloseLen : Chars → Option Nat
  | '*' :: '/' :: _ => some 2
  | _ :: r => (blockCloseLen r).map (· + 1)
  | [] => none

/-- Length of a terminated block comment `/* … */` at the head, if any. -/
def blockCommentLen : Chars → Option Nat
  | '/' :: '*' :: r => (blockCloseLen r).map (· + 2)
  | _ => none

def isHSpace (c : Char) : Bool := c = ' ' || c = '\t'

def isWsChar (c : Char) : Bool := c = ' ' || c = '\t' || c = '\n' || c = '\r'

/-- Fueled scanner for `sp`: horizontal whitespace and block comments. -/
def spLenF : Nat → Chars → Nat
  | 0, _ => 0
  | _ + 1, [] => 0
  | n + 1, c :: r =>
    if isHSpace c then 1 + spLenF n r
    else
      match blockCommentLen (c :: r) with
      | some k => k + spLenF n ((c :: r).drop k)
      | none => 0

/-- Fueled scanner for `ws`: any whitespace plus both comment forms. -/
def wsLenF : Nat → Chars → Nat
  | 0, _ => 0
  | _ + 1, [] => 0
  | n + 1, c :: r =>
    if isWsChar c then 1 + wsLenF n r
    else
      match blockCommentLen (c :: r) with
      | some k => k + wsLenF n ((c :: r).drop k)
      | none =>
        match lineCommentLen (c :: r) with
        | some k => k + wsLenF n ((c :: r).drop k)
        | none => 0

/-- `sp`: consume horizontal trivia, never failing. -/
def spScan (i : In) : In := i.adv (spLenF i.rest.length i.rest)

/-- `ws`: consume any trivia, never failing. -/
def wsScan (i : In) : In := i.adv (wsLenF i.rest.length i.rest)

/-- `space0`: consume only SP/HT. -/
def space0Scan (i : In) : In := i.adv (i.rest.takeWhile isHSpace).length

/-- `sp` as a parser yielding its span. -/
def spSpanP : P Span := fun i => .ok (i.off, (spScan i).off) (spScan i)

/-- `ws` as a parser yielding its span. -/
def wsSpanP : P Span := fun i => .ok (i.off, (wsScan i).off) (wsScan i)

/-- `line_comment` as a parser yielding its span. -/
def lineCommentP : P Span := fun i =>
  match lineCommentLen i.rest with
  | some k => .ok (i.off, i.off + k) (i.adv k)
  | none => .back ⟨i.off, []⟩

/-- winnow `line_ending`: `\n` or `\r\n`. -/
def lineEndingP : P Chars :=
  palt (ptag (chars "\n")) (ptag (chars "\r\n"))

/-- winnow `crlf`. -/
def crlfP : P Chars := ptag (chars "\r\n")

/-- `raw_string(p)` from `repr.rs` (modelled from the spec: record the span
consumed by a trivia parser as a `RawString`). -/
def rawStringOf (scan : In → In) : P RawString := fun i =>
  .ok (.fromSpan i.off (scan i).off) (scan i)

def rawWsP : P RawString := rawStringOf wsScan
def rawSpP : P RawString := rawStringOf spScan
def rawSpace0P : P RawString := rawStringOf space0Scan

/-! ## Primitive lexers

Modelled from the spec: `string.rs` and `number.rs` are not among the
provided sources.  Identifiers use Unicode `ID_Start`/`ID_Continue` with
ASCII extensions for `_` and `-` (§6); the embedding treats every code point
above ASCII as identifier-continuing, which agrees with the source on every
ASCII input. -/

def isIdStart (c : Char) : Bool := c.isAlpha || c = '_' || 127 < c.toNat

def isIdCont (c : Char) : Bool := isIdStart c || c.isDigit || c = '-'

/-- `str_ident`: an identifier as a raw string slice. -/
def strIdentP : P Chars := fun i =>
  match i.rest with
  | c :: r =>
    if isIdStart c then
      let tl := r.takeWhile isIdCont
      .ok (c :: tl) (i.adv (1 + tl.length))
    else .back ⟨i.off, []⟩
  | [] => .back ⟨i.off, []⟩

/-- `ident`: an identifier as a `Decorated<Ident>` carrying its span. -/
def identP : P (D Chars) := fun i =>
  match strIdentP i with
  | .ok s i' => .ok ⟨s, {}, some (i.off, i'.off)⟩ i'
  | .back e => .back e
  | .cut e => .cut e

/-- `cut_ident` from `context.rs`. -/
def cutIdentP : P (D Chars) :=
  pctx (.expected (.desc "identifier")) (pcut identP)

/-- `cut_str_ident` from `context.rs`. -/
def cutStrIdentP : P Chars :=
  pctx (.expected (.desc "identifier")) (pcut strIdentP)

def digitsVal (l : Chars) : Nat :=
  l.foldl (fun acc c => 10 * acc + (c.toNat - 48)) 0

/-- The value of a number literal: a decimal mantissa and a power-of-ten
exponent, kept unnormalized (the crate's `Number` likewise distinguishes
`1` from `1.0`). -/
structure NumV where
  mant : Int
  exp10 : Int
deriving Repr, DecidableEq

def NumV.neg (v : NumV) : NumV := ⟨-v.mant, v.exp10⟩

/-- Numeric value of integer digits, fraction digits and signed exponent. -/
def numVal (intD fracD : Chars) (negExp : Bool) (expD : Chars) : NumV :=
  { mant := (digitsVal intD) * (10 : Int) ^ fracD.length + digitsVal fracD
    exp10 := (if negExp then -(digitsVal expD : Int) else (digitsVal expD : Int)) -
      fracD.length }

/-- `num`: an unsigned decimal number with optional fraction and exponent. -/
def numP : P NumV := fun i =>
  let intD := i.rest.takeWhile Char.isDigit
  if intD.isEmpty then .back ⟨i.off, []⟩
  else
    let i1 := i.adv intD.length
    -- optional fraction, backtracked unless a digit follows the dot
    let (fracD, i2) :=
      match i1.rest with
      | '.' :: r =>
        let fd := r.takeWhile Char.isDigit
        if fd.isEmpty then ([], i1) else (fd, i1.adv (1 + fd.length))
      | _ => ([], i1)
    -- optional exponent, backtracked unless digits follow
    let (negExp, expD, i3) :=
      match i2.rest with
      | 'e' :: r | 'E' :: r =>
        match r with
        | '-' :: r2 =>
          let ed := r2.takeWhile Char.isDigit
          if ed.isEmpty then (false, [], i2) else (true, ed, i2.adv (2 + ed.length))
        | '+' :: r2 =>
          let ed := r2.takeWhile Char.isDigit
          if ed.isEmpty then (false, [], i2) else (false, ed, i2.adv (2 + ed.length))
        | _ =>
          let ed := r.takeWhile Char.isDigit
          if ed.isEmpty then (false, [], i2) else (false, ed, i2.adv (1 + ed.length))
      | _ => (false, [], i2)
    .ok (numVal intD fracD negExp expD) i3

/-- winnow `dec_uint`. -/
def decUintP : P Nat := fun i =>
  let ds := i.rest.takeWhile Char.isDigit
  if ds.isEmpty then .back ⟨i.off, []⟩
  else .ok (digitsVal ds) (i.adv ds.length)

/-! ## The concrete syntax tree

Node shapes follow `hcl-edit`'s tree model (§3 of the spec and the
constructors used by `expr.rs` / `structure.rs`): every node carries its own
`Decor` and optional `Span`. -/

inductive UnOp where
  | neg
  | not
deriving Repr, DecidableEq

inductive BinOp where
  | eq | notEq | less | lessEq | greater | greaterEq
  | plus | minus | mul | div | mod | and | or
deriving Repr, DecidableEq

/-- `ObjectValueAssignment`. -/
inductive OVAssign where
  | equals
  | colon
deriving Repr, DecidableEq

/-- `ObjectValueTerminator`. -/
inductive OVTerm where
  | none
  | comma
  | newline
deriving Repr, DecidableEq

/-- Template elements (modelled from the spec, §4.4: `template.rs` is not
among the provided sources).  Literals keep their escapes verbatim;
interpolations and directive markers record their strip flags. -/
inductive TElem (ε : Type) where
  | lit (s : Chars) (sp : Option Span)
  | interp (e : ε) (stripL stripR : Bool) (sp : Option Span)
  | dirIf (cond : ε) (thenT : List (TElem ε)) (elseT : Option (List (TElem ε)))
      (strips : List Bool) (sp : Option Span)
  | dirFor (keyVar : Option (D Chars)) (valVar : D Chars) (coll : ε)
      (body : List (TElem ε)) (strips : List Bool) (sp : Option Span)
deriving Repr

/-- `ObjectKey`. -/
inductive OKey (ε : Type) where
  | ident (id : D Chars)
  | keyExpr (e : ε)
deriving Repr, DecidableEq

/-- One object entry: key, assignment marker, value and value terminator
(`ObjectKey` plus `ObjectValue`). -/
structure OItem (ε : Type) where
  key : OKey ε
  assign : OVAssign := .equals
  value : ε
  term : OVTerm := .newline
deriving Repr, DecidableEq

/-- `ForIntro`. -/
structure ForIntroF (ε : Type) where
  keyVar : Option (D Chars) := none
  valVar : D Chars
  coll : ε
  d : Decor := {}
  sp : Option Span := none
deriving Repr, DecidableEq

/-- `ForCond`. -/
structure ForCondF (ε : Type) where
  e : ε
  d : Decor := {}
  sp : Option Span := none
deriving Repr, DecidableEq

/-- `ForExpr`. -/
structure ForExprF (ε : Type) where
  intro : ForIntroF ε
  keyExpr : Option ε := none
  valExpr : ε
  grouping : Bool := false
  cond : Option (ForCondF ε) := none
deriving Repr, DecidableEq

/-- `FuncArgs`. -/
structure FuncArgsF (ε : Type) where
  args : List ε := []
  expandFinal : Bool := false
  trailingComma : Bool := false
  trailing : RawString := .owned []
  d : Decor := {}
  sp : Option Span := none
deriving Repr, DecidableEq

/-- `TraversalOperator`; the decor of each variant lives on the wrapped
payload, exactly as in the crate. -/
inductive TravOp (ε : Type) where
  | attrSplat (s : D Unit)
  | fullSplat (s : D Unit)
  | getAttr (id : D Chars)
  | legacyIndex (n : D Nat)
  | index (e : ε)
deriving Repr, DecidableEq

/-- `Expression`. -/
inductive Expression where
  | nullE (d : Decor) (sp : Option Span)
  | boolE (b : Bool) (d : Decor) (sp : Option Span)
  | numE (v : NumV) (rep : Option RawString) (d : Decor) (sp : Option Span)
  | strE (s : Chars) (d : Decor) (sp : Option Span)
  | varE (id : Chars) (d : Decor) (sp : Option Span)
  | tmplE (elems : List (TElem Expression)) (d : Decor) (sp : Option Span)
  | heredocE (delim : Chars) (indented : Bool) (elems : List (TElem Expression))
      (tmplSp : Option Span) (trailing : RawString) (d : Decor) (sp : Option Span)
  | parenE (inner : Expression) (d : Decor) (sp : Option Span)
  | arrE (items : List Expression) (tComma : Bool) (trailing : RawString)
      (d : Decor) (sp : Option Span)
  | objE (items : List (OItem Expression)) (trailing : RawString)
      (d : Decor) (sp : Option Span)
  | forE (f : ForExprF Expression) (d : Decor) (sp : Option Span)
  | condE (c t f : Expression) (d : Decor) (sp : Option Span)
  | funcE (id : D Chars) (args : FuncArgsF Expression) (d : Decor) (sp : Option Span)
  | unE (op : Sp UnOp) (e : Expression) (d : Decor) (sp : Option Span)
  | binE (l : Expression) (op : Sp BinOp) (r : Expression) (d : Decor) (sp : Option Span)
  | travE (e : Expression) (ops : List (D (TravOp Expression))) (d : Decor) (sp : Option Span)
deriving Repr

/-- `Template` (result of `parse_template`). -/
structure TemplateS where
  elems : List (TElem Expression) := []
  sp : Option Span := none
deriving Repr

/-- `BlockLabel`. -/
inductive BlockLabelS where
  | strL (s : D Chars)
  | identL (id : D Chars)
deriving Repr, DecidableEq

/-- `Body`, parameterized by the structure type to allow nesting. -/
structure BodyF (σ : Type) where
  sts : List σ := []
  preferOneline : Bool := false
  d : Decor := {}
  sp : Option Span := none
deriving Repr, DecidableEq

/-- `Structure`: an attribute or a block. -/
inductive StructureS where
  | attr (key : D Chars) (value : Expression) (d : Decor) (sp : Option Span)
  | block (id : D Chars) (labels : List BlockLabelS) (body : BodyF StructureS)
      (d : Decor) (sp : Option Span)
deriving Repr

abbrev BodyS := BodyF StructureS

/-! ## Decoration access and combinators

Modelled from the spec (§4.2): `repr.rs` is not among the provided sources.
The combinators mutate the decoration slots of the produced node, exactly as
the crate's `Decorate`/`SetSpan` traits do. -/

/-- Access to a node's `Decor` (the crate's `Decorate` trait). -/
class DecorOf (α : Type) where
  getD : α → Decor
  setD : α → Decor → α

/-- Access to a node's `Span` (the crate's `SetSpan` trait). -/
class SpanOf (α : Type) where
  setSp : α → Span → α

def setPre {α : Type} [DecorOf α] (a : α) (r : RawString) : α :=
  DecorOf.setD a { DecorOf.getD a with pre := some r }

def setSuf {α : Type} [DecorOf α] (a : α) (r : RawString) : α :=
  DecorOf.setD a { DecorOf.getD a with suf := some r }

instance {α : Type} : DecorOf (D α) where
  getD a := a.d
  setD a d := { a with d := d }

instance {α : Type} : SpanOf (D α) where
  setSp a s := { a with sp := some s }

instance {α : Type} : SpanOf (Sp α) where
  setSp a s := { a with sp := some s }

def exprDecor : Expression → Decor
  | .nullE d _ => d
  | .boolE _ d _ => d
  | .numE _ _ d _ => d
  | .strE _ d _ => d
  | .varE _ d _ => d
  | .tmplE _ d _ => d
  | .heredocE _ _ _ _ _ d _ => d
  | .parenE _ d _ => d
  | .arrE _ _ _ d _ => d
  | .objE _ _ d _ => d
  | .forE _ d _ => d
  | .condE _ _ _ d _ => d
  | .funcE _ _ d _ => d
  | .unE _ _ d _ => d
  | .binE _ _ _ d _ => d
  | .travE _ _ d _ => d

def exprSetDecor : Expression → Decor → Expression
  | .nullE _ sp, d => .nullE d sp
  | .boolE b _ sp, d => .boolE b d sp
  | .numE v rep _ sp, d => .numE v rep d sp
  | .strE s _ sp, d => .strE s d sp
  | .varE id _ sp, d => .varE id d sp
  | .tmplE es _ sp, d => .tmplE es d sp
  | .heredocE dl ind es tsp tr _ sp, d => .heredocE dl ind es tsp tr d sp
  | .parenE e _ sp, d => .parenE e d sp
  | .arrE es tc tr _ sp, d => .arrE es tc tr d sp
  | .objE es tr _ sp, d => .objE es tr d sp
  | .forE f _ sp, d => .forE f d sp
  | .condE c t f _ sp, d => .condE c t f d sp
  | .funcE id as _ sp, d => .funcE id as d sp
  | .unE op e _ sp, d => .unE op e d sp
  | .binE l op r _ sp, d => .binE l op r d sp
  | .travE e os _ sp, d => .travE e os d sp

def exprSetSpan : Expression → Span → Expression
  | .nullE d _, s => .nullE d (some s)
  | .boolE b d _, s => .boolE b d (some s)
  | .numE v rep d _, s => .numE v rep d (some s)
  | .strE st d _, s => .strE st d (some s)
  | .varE id d _, s => .varE id d (some s)
  | .tmplE es d _, s => .tmplE es d (some s)
  | .heredocE dl ind es tsp tr d _, s => .heredocE dl ind es tsp tr d (some s)
  | .parenE e d _, s => .parenE e d (some s)
  | .arrE es tc tr d _, s => .arrE es tc tr d (some s)
  | .objE es tr d _, s => .objE es tr d (some s)
  | .forE f d _, s => .forE f d (some s)
  | .condE c t f d _, s => .condE c t f d (some s)
  | .funcE id as d _, s => .funcE id as d (some s)
  | .unE op e d _, s => .unE op e d (some s)
  | .binE l op r d _, s => .binE l op r d (some s)
  | .travE e os d _, s => .travE e os d (some s)

instance : DecorOf Expression where
  getD := exprDecor
  setD := exprSetDecor

instance : SpanOf Expression where
  setSp := exprSetSpan

instance {ε : Type} : DecorOf (FuncArgsF ε) where
  getD a := a.d
  setD a d := { a with d := d }

instance {ε : Type} : DecorOf (ForIntroF ε) where
  getD a := a.d
  setD a d := { a with d := d }

instance {ε : Type} : DecorOf (ForCondF ε) where
  getD a := a.d
  setD a d := { a with d := d }

/-- `TraversalOperator` delegates its decorations to the wrapped payload. -/
def travOpSetDecor {ε : Type} [DecorOf ε] : TravOp ε → Decor → TravOp ε
  | .attrSplat s, d => .attrSplat { s with d := d }
  | .fullSplat s, d => .fullSplat { s with d := d }
  | .getAttr id, d => .getAttr { id with d := d }
  | .legacyIndex n, d => .legacyIndex { n with d := d }
  | .index e, d => .index (DecorOf.setD e d)

def travOpGetDecor {ε : Type} [DecorOf ε] : TravOp ε → Decor
  | .attrSplat s => s.d
  | .fullSplat s => s.d
  | .getAttr id => id.d
  | .legacyIndex n => n.d
  | .index e => DecorOf.getD e

instance {ε : Type} [DecorOf ε] : DecorOf (TravOp ε) where
  getD := travOpGetDecor
  setD := travOpSetDecor

/-- `ObjectKey` delegates its decorations to the wrapped payload. -/
instance {ε : Type} [DecorOf ε] : DecorOf (OKey ε) where
  getD
    | .ident id => id.d
    | .keyExpr e => DecorOf.getD e
  setD
    | .ident id, d => .ident { id with d := d }
    | .keyExpr e, d => .keyExpr (DecorOf.setD e d)

instance {σ : Type} : DecorOf (BodyF σ) where
  getD b := b.d
  setD b d := { b with d := d }

instance {σ : Type} : SpanOf (BodyF σ) where
  setSp b s := { b with sp := some s }

def structDecor : StructureS → Decor
  | .attr _ _ d _ => d
  | .block _ _ _ d _ => d

def structSetDecor : StructureS → Decor → StructureS
  | .attr k v _ sp, d => .attr k v d sp
  | .block id ls b _ sp, d => .block id ls b d sp

def structSetSpan : StructureS → Span → StructureS
  | .attr k v d _, s => .attr k v d (some s)
  | .block id ls b d _, s => .block id ls b d (some s)

instance : DecorOf StructureS where
  getD := structDecor
  setD := structSetDecor

instance : SpanOf StructureS where
  setSp := structSetSpan

instance : DecorOf BlockLabelS where
  getD
    | .strL s => s.d
    | .identL id => id.d
  setD
    | .strL s, d => .strL { s with d := d }
    | .identL id, d => .identL { id with d := d }

instance : SpanOf TemplateS where
  setSp t s := { t with sp := some s }

/-- `prefix_decorated(trivia, p)` (§4.2). -/
def prefixDecP {α : Type} [DecorOf α] (trivia : P Span) (p : P α) : P α :=
  pbind trivia (fun s => pmap (fun a => setPre a (.fromSpan s.1 s.2)) p)

/-- `suffix_decorated(p, trivia)` (§4.2). -/
def suffixDecP {α : Type} [DecorOf α] (p : P α) (trivia : P Span) : P α :=
  pbind p (fun a => pmap (fun s => setSuf a (.fromSpan s.1 s.2)) trivia)

/-- `decorated(trivia₁, p, trivia₂)` (§4.2). -/
def decP {α : Type} [DecorOf α] (t1 : P Span) (p : P α) (t2 : P Span) : P α :=
  suffixDecP (prefixDecP t1 p) t2

/-- `spanned(p)` (§4.2). -/
def spannedP {α : Type} [SpanOf α] (p : P α) : P α := fun i =>
  match p i with
  | .ok a i' => .ok (SpanOf.setSp a (i.off, i'.off)) i'
  | .back e => .back e
  | .cut e => .cut e

/-- The span of `(sp, opt(line_comment))`, used by the body parser. -/
def spOptCommentSpanP : P Span := fun i =>
  let j := spScan i
  match lineCommentLen j.rest with
  | some k => .ok (i.off, j.off + k) (j.adv k)
  | none => .ok (i.off, j.off) j

/-! ## Expression parse state

Modelled from the spec (§4.3, §9): `state.rs` is not among the provided
sources.  The `RefCell<ExprParseState>` of `expr.rs` becomes explicit state
passing.  Pending unary operators are kept as a stack so that nested unary
operators compose. -/

structure EState where
  current : Option Expression := none
  pws : Option Span := none
  pun : List (Sp UnOp × Span) := []
deriving Repr

/-- Wrap a parsed term in the pending unary operators, innermost first; the
span recorded with each operator becomes the operand's prefix decor. -/
def applyUn : List (Sp UnOp × Span) → Expression → Expression
  | [], e => e
  | (op, s) :: rest, e =>
    applyUn rest (.unE op (setPre e (.fromSpan s.1 s.2)) {} none)

/-- `on_expr_term`. -/
def EState.onExprTerm (st : EState) (e : Expression) : EState :=
  { st with current := some (applyUn st.pun e), pun := [] }

/-- `on_span`. -/
def EState.onSpan (st : EState) (s : Span) : EState :=
  { st with current := st.current.map (exprSetSpan · s) }

/-- `on_ws`: stash the whitespace span seen after the current expression. -/
def EState.onWs (st : EState) (s : Span) : EState :=
  { st with pws := some s }

/-- `on_unary_op`. -/
def EState.onUnaryOp (st : EState) (op : Sp UnOp) (s : Span) : EState :=
  { st with pun := (op, s) :: st.pun }

/-- The current expression with the stashed whitespace attached as its decor
suffix (used when an operation follows). -/
def EState.lhs (st : EState) : Option Expression :=
  match st.pws with
  | some s => st.current.map (setSuf · (.fromSpan s.1 s.2))
  | none => st.current

/-- `on_traversal`. -/
def EState.onTraversal (st : EState) (ops : List (D (TravOp Expression))) : EState :=
  { st with
    current := st.lhs.map (fun l => .travE l ops {} none)
    pws := none }

/-- `on_binary_op`. -/
def EState.onBinaryOp (st : EState) (op : Sp BinOp) (rhs : Expression) : EState :=
  { st with
    current := st.lhs.map (fun l => .binE l op rhs {} none)
    pws := none }

/-- `on_conditional`. -/
def EState.onConditional (st : EState) (t f : Expression) : EState :=
  { st with
    current := st.lhs.map (fun l => .condE l t f {} none)
    pws := none }

/-! ## Body parse state

Modelled from the spec (§4.5, §4.3): `state.rs` is not among the provided
sources.  Whitespace spans reported by `on_ws` accumulate until they are
attached as the prefix of the next structure (`on_structure`) or, at a line
ending, as the suffix of the previous one (`on_line_ending`).  Attribute
keys are tracked in a per-body set for the redefinition check. -/

structure BState where
  sts : List StructureS := []
  keys : List Chars := []
  pend : Option Span := none
deriving Repr

def BState.onWs (st : BState) (s : Span) : BState :=
  { st with
    pend := some (match st.pend with
      | some p => (p.1, s.2)
      | none => s) }

def BState.isRedefined (st : BState) (k : Chars) : Bool :=
  st.keys.contains k

def BState.addKey (st : BState) (k : Chars) : BState :=
  { st with keys := k :: st.keys }

def BState.onStructure (st : BState) (s : StructureS) : BState :=
  let s' := match st.pend with
    | some p => setPre s (.fromSpan p.1 p.2)
    | none => s
  { st with sts := st.sts ++ [s'], pend := none }

/-- Apply a function to the last element of a list. -/
def mapLast {α : Type} (f : α → α) : List α → List α
  | [] => []
  | [a] => [f a]
  | a :: rest => a :: mapLast f rest

def BState.onLineEnding (st : BState) : BState :=
  match st.pend with
  | some p =>
    { st with
      sts := mapLast (setSuf · (.fromSpan p.1 p.2)) st.sts
      pend := none }
  | none => st

def BState.intoBody (st : BState) : BodyS := { sts := st.sts }

/-! ## Non-recursive expression-parser helpers (`expr.rs`) -/

/-- Error used when the explicit recursion fuel runs out.  The public entry
points supply more fuel than any input can consume. -/
def fuelCut {α : Type} : P α := fun i => .cut ⟨i.off, [.expression "recursion limit"]⟩

/-- `unary_operator`. -/
def unaryOperatorP : P UnOp := fun i =>
  match i.rest with
  | '-' :: r => .ok .neg ⟨r, i.off + 1⟩
  | '!' :: r => .ok .not ⟨r, i.off + 1⟩
  | _ :: _ => .back ⟨i.off + 1, []⟩
  | [] => .back ⟨i.off, []⟩

/-- `binary_operator`. -/
def binaryOperatorP : P BinOp := fun i =>
  match i.rest with
  | '=' :: '=' :: r => .ok .eq ⟨r, i.off + 2⟩
  | '=' :: _ => .back ⟨i.off + 1, []⟩
  | '!' :: '=' :: r => .ok .notEq ⟨r, i.off + 2⟩
  | '!' :: _ => .back ⟨i.off + 1, []⟩
  | '<' :: '=' :: r => .ok .lessEq ⟨r, i.off + 2⟩
  | '<' :: r => .ok .less ⟨r, i.off + 1⟩
  | '>' :: '=' :: r => .ok .greaterEq ⟨r, i.off + 2⟩
  | '>' :: r => .ok .greater ⟨r, i.off + 1⟩
  | '+' :: r => .ok .plus ⟨r, i.off + 1⟩
  | '-' :: r => .ok .minus ⟨r, i.off + 1⟩
  | '*' :: r => .ok .mul ⟨r, i.off + 1⟩
  | '/' :: r => .ok .div ⟨r, i.off + 1⟩
  | '%' :: r => .ok .mod ⟨r, i.off + 1⟩
  | '&' :: '&' :: r => .ok .and ⟨r, i.off + 2⟩
  | '&' :: _ => .back ⟨i.off + 1, []⟩
  | '|' :: '|' :: r => .ok .or ⟨r, i.off + 2⟩
  | '|' :: _ => .back ⟨i.off + 1, []⟩
  | _ :: _ => .back ⟨i.off + 1, []⟩
  | [] => .back ⟨i.off, []⟩

/-- First bytes of the single-byte binary-operator peek arm of `expr_inner`
(`!`, `<`, `>`, `+`, `-`, `*`, `/`, `%`, `&`, `|`). -/
def binStartChars : Chars := ['!', '<', '>', '+', '-', '*', '/', '%', '&', '|']

/-- `object_value_assignment`. -/
def objectValueAssignP : P OVAssign := fun i =>
  match i.rest with
  | '=' :: r => .ok .equals ⟨r, i.off + 1⟩
  | ':' :: r => .ok .colon ⟨r, i.off + 1⟩
  | _ :: _ => .cut ⟨i.off + 1,
      [.expression "object value assignment", .expected (.ch '='), .expected (.ch ':')]⟩
  | [] => .back ⟨i.off, []⟩

/-- The trailer of a function-argument list: `false` for a trailing comma,
`true` for a trailing `...`. -/
def trailerP : P Bool := fun i =>
  match i.rest with
  | ',' :: r => .ok false ⟨r, i.off + 1⟩
  | '.' :: r => pmap (fun _ => true) (cutTag "..") ⟨r, i.off + 1⟩
  | _ :: _ => .back ⟨i.off + 1, []⟩
  | [] => .back ⟨i.off, []⟩

/-- `heredoc_start`. -/
def heredocStartP : P (Bool × Chars) := fun i =>
  match ptag (chars "<<") i with
  | .ok _ i1 =>
    match popt (pchar '-') i1 with
    | .ok dash i2 =>
      match pctx (.expected (.desc "identifier")) (pcut strIdentP) i2 with
      | .ok delim i3 =>
        match pctx (.expected (.ch '\n')) (pcut lineEndingP) i3 with
        | .ok _ i4 => .ok (dash.isSome, delim) i4
        | .back e => .back e
        | .cut e => .cut e
      | .back e => .back e
      | .cut e => .cut e
    | .back e => .back e
    | .cut e => .cut e
  | .back e => .back e
  | .cut e => .cut e

/-- The lookahead of `for_expr_or_items`: `peek((ws, "for", one_of(" \t#/")))`. -/
def peekForP : P Unit := fun i =>
  let j := wsScan i
  match ptag (chars "for") j with
  | .ok _ j2 =>
    match poneOf (chars " \t#/") j2 with
    | .ok _ _ => .ok () i
    | .back e => .back e
    | .cut e => .cut e
  | .back e => .back e
  | .cut e => .cut e

/-- `for_expr_or_items`: dispatch on the `for` lookahead. -/
def forExprOrItems {α : Type} (f g : P α) : P α := fun i =>
  match peekForP i with
  | .ok _ _ => f i
  | _ => g i

/-! ## Quoted strings and template literals

Modelled from the spec (§4.3, §4.4, §9): `string.rs` and `template.rs` are
not among the provided sources.  A plain quoted string fails over to the
string-template parser when it contains an interpolation or directive
marker; escape sequences are retained verbatim. -/

/-- Length of the inner content of a quoted string literal up to the closing
quote; `none` when a template marker, newline or end of input intervenes. -/
def strInnerLen : Nat → Chars → Option Nat
  | 0, _ => none
  | _ + 1, [] => none
  | n + 1, c :: r =>
    if c = '"' then some 0
    else if c = '\n' then none
    else if c = '\\' then
      match r with
      | _ :: r2 => (strInnerLen n r2).map (· + 2)
      | [] => none
    else if c = '$' ∨ c = '%' then
      match r with
      | '\x7b' :: _ => none
      | _ => (strInnerLen n r).map (· + 1)
    else (strInnerLen n r).map (· + 1)

/-- `string`: a quoted string literal with no template markers; the value
keeps the raw inner text. -/
def stringP : P Chars := fun i =>
  match i.rest with
  | '"' :: r =>
    match strInnerLen r.length r with
    | some k => .ok (r.take k) (i.adv (k + 2))
    | none => .back ⟨i.off, []⟩
  | _ => .back ⟨i.off, []⟩

/-- Does this line (of a heredoc body) consist of optional horizontal
whitespace followed by the end delimiter? -/
def delimLineAt : Option Chars → Chars → Bool
  | none, _ => false
  | some delim, l =>
    let l' := l.dropWhile isHSpace
    delim.isPrefixOf l' &&
      (match l'.drop delim.length with
       | [] => true
       | c :: _ => !(isIdCont c))

/-- Length of a maximal template literal run.  Stops before `${` and `%{`
markers, before the closing quote of a quoted template, and before a heredoc
end-delimiter line; the escapes `$${`, `%%{` and `\c` are consumed
verbatim. -/
def litLen : Nat → Bool → Option Chars → Bool → Chars → Nat
  | 0, _, _, _, _ => 0
  | _ + 1, _, _, _, [] => 0
  | n + 1, sq, delim, atLS, c :: r =>
    if atLS && delimLineAt delim (c :: r) then 0
    else if sq && c = '"' then 0
    else
      match c :: r with
      | '$' :: '$' :: '\x7b' :: r3 => 3 + litLen n sq delim false r3
      | '%' :: '%' :: '\x7b' :: r3 => 3 + litLen n sq delim false r3
      | '$' :: '\x7b' :: _ => 0
      | '%' :: '\x7b' :: _ => 0
      | '\\' :: _ :: r2 => 2 + litLen n sq delim false r2
      | _ => 1 + litLen n sq delim (c = '\n') r

/-- The directive keyword following a `%{` marker, if any. -/
def dirKwAt (l : Chars) : Option String :=
  let l1 := match l with
    | '~' :: r => r
    | _ => l
  let l2 := (wsScan ⟨l1, 0⟩).rest
  if (chars "endif").isPrefixOf l2 then some "endif"
  else if (chars "endfor").isPrefixOf l2 then some "endfor"
  else if (chars "else").isPrefixOf l2 then some "else"
  else if (chars "if").isPrefixOf l2 then some "if"
  else if (chars "for").isPrefixOf l2 then some "for"
  else none

/-- A directive marker `%{ [~] kw [~] }`, yielding its two strip flags. -/
def dirMarkerP (kw : String) : P (Bool × Bool) := fun i =>
  match ptag (chars "%\x7b") i with
  | .ok _ i1 =>
    match popt (pchar '~') i1 with
    | .ok sL i2 =>
      match ptag (chars kw) (wsScan i2) with
      | .ok _ i4 =>
        match popt (pchar '~') (wsScan i4) with
        | .ok sR i6 =>
          match cutChar '\x7d' i6 with
          | .ok _ i7 => .ok (sL.isSome, sR.isSome) i7
          | .back e => .back e
          | .cut e => .cut e
        | .back e => .back e
        | .cut e => .cut e
      | .back e => .back e
      | .cut e => .cut e
    | .back e => .back e
    | .cut e => .cut e
  | .back e => .back e
  | .cut e => .cut e

/-- `number` as an expression term (value plus verbatim repr). -/
def numberTermP (st : EState) : P EState :=
  pmap (fun vr => st.onExprTerm (.numE vr.1 (some (.owned vr.2)) {} none))
    (precognized numP)

/-- `neg_number`: `-`, optional horizontal trivia, then a number; the repr
keeps everything that was consumed. -/
def negNumberP (st : EState) : P EState := fun i =>
  match precognized (fun i0 =>
      match pchar '-' i0 with
      | .ok _ i1 => numP (spScan i1)
      | .back e => .back e
      | .cut e => .cut e) i with
  | .ok vr i' => .ok (st.onExprTerm (.numE vr.1.neg (some (.owned vr.2)) {} none)) i'
  | .back e => .back e
  | .cut e => .cut e

/-! ## The expression and template parsers (`expr.rs`, one function per
source combinator, with explicit fuel) -/

mutual

/-- `expr`: run `expr_inner` on a fresh parse state and extract the built
expression. -/
def exprP : Nat → P Expression
  | 0 => fuelCut
  | n + 1 => fun i =>
    match exprInnerP n {} i with
    | .ok st i' =>
      match st.current with
      | some e => .ok e i'
      | none => .cut ⟨i.off, []⟩
    | .back e => .back e
    | .cut e => .cut e

/-- `expr_inner`: parse a term, record its span, then fold operations. -/
def exprInnerP : Nat → EState → P EState
  | 0, _ => fuelCut
  | n + 1, st => fun i =>
    match exprTermP n st i with
    | .ok st' i' => exprInnerLoop n (st'.onSpan (i.off, i'.off)) i'
    | .back e => .back e
    | .cut e => .cut e

/-- The driver loop of `expr_inner`: provisionally consume horizontal trivia
and peek two bytes to decide between traversal, conditional, binary
operation, or stopping (rewinding the trivia). -/
def exprInnerLoop : Nat → EState → P EState
  | 0, _ => fuelCut
  | n + 1, st => fun i =>
    match (spScan i).rest with
    | a :: b :: _ =>
      if (a = '/' ∧ b = '/') ∨ (a = '/' ∧ b = '*') ∨ (a = '.' ∧ b = '.') then
        .ok st i
      else if a = '.' ∨ a = '[' then
        match traversalP n (st.onWs (i.off, (spScan i).off)) (spScan i) with
        | .ok st' j' => exprInnerLoop n st' j'
        | .back e => .back e
        | .cut e => .cut e
      else if a = '?' then
        conditionalP n (st.onWs (i.off, (spScan i).off)) (spScan i)
      else if (a = '=' ∧ b = '=') ∨ a ∈ binStartChars then
        binaryOpP n (st.onWs (i.off, (spScan i).off)) (spScan i)
      else .ok st i
    | _ => .ok st i

/-- `expr_term`: dispatch on the first byte. -/
def exprTermP : Nat → EState → P EState
  | 0, _ => fuelCut
  | n + 1, st => fun i =>
    match i.rest with
    | [] => .back ⟨i.off, []⟩
    | c :: _ =>
      if c = '"' then stringlikeP n st i
      else if c = '[' then arrayP n st i
      else if c = '\x7b' then objectP n st i
      else if c.isDigit then numberTermP st i
      else if c = '<' then heredocP n st i
      else if c = '-' then palt (negNumberP st) (unaryOpP n st) i
      else if c = '!' then unaryOpP n st i
      else if c = '(' then parenthesisP n st i
      else if isIdStart c then identlikeP n st i
      else .cut ⟨i.off,
        [.expression "expression", .expected (.ch '"'), .expected (.ch '['),
         .expected (.ch '\x7b'), .expected (.ch '-'), .expected (.ch '!'),
         .expected (.ch '('), .expected (.ch '_'), .expected (.ch '<'),
         .expected (.desc "letter"), .expected (.desc "digit")]⟩

/-- `stringlike`: a quoted string or, failing that, a string template. -/
def stringlikeP : Nat → EState → P EState
  | 0, _ => fuelCut
  | n + 1, st =>
    palt (pmap (fun s => st.onExprTerm (.strE s {} none)) stringP)
      (pmap (fun elems => st.onExprTerm (.tmplE elems {} none)) (stringTemplateP n))

/-- `traversal`: one or more prefix-decorated traversal operators folded
onto the state. -/
def traversalP : Nat → EState → P EState
  | 0, _ => fuelCut
  | n + 1, st => fun i =>
    match travElemP n i with
    | .ok op i1 =>
      match travOpsLoop n [op] i1 with
      | .ok ops i2 => .ok (st.onTraversal ops) i2
      | .back e => .back e
      | .cut e => .cut e
    | .back e => .back e
    | .cut e => .cut e

/-- One `prefix_decorated(sp, traversal_operator.map(Decorated::new))`. -/
def travElemP : Nat → P (D (TravOp Expression))
  | 0 => fuelCut
  | n + 1 =>
    prefixDecP spSpanP (pmap (fun op => D.mk op {} none) (travOperatorP n))

def travOpsLoop : Nat → List (D (TravOp Expression)) → P (List (D (TravOp Expression)))
  | 0, _ => fuelCut
  | n + 1, acc => fun i =>
    match travElemP n i with
    | .ok op i' => travOpsLoop n (acc ++ [op]) i'
    | .back _ => .ok acc i
    | .cut e => .cut e

/-- `traversal_operator`. -/
def travOperatorP : Nat → P (TravOp Expression)
  | 0 => fuelCut
  | n + 1 => fun i =>
    match i.rest with
    | '.' :: r =>
      prefixDecP wsSpanP (fun i2 =>
        match i2.rest with
        | '*' :: r2 => .ok (TravOp.attrSplat ⟨(), {}, none⟩) ⟨r2, i2.off + 1⟩
        | c :: _ =>
          if c.isDigit then pmap (fun k => TravOp.legacyIndex ⟨k, {}, none⟩) decUintP i2
          else if isIdStart c then pmap TravOp.getAttr identP i2
          else .cut ⟨i2.off,
            [.expression "traversal operator", .expected (.ch '*'),
             .expected (.desc "identifier"), .expected (.desc "unsigned integer")]⟩
        | [] => .back ⟨i2.off, []⟩) ⟨r, i.off + 1⟩
    | '[' :: r =>
      pbind
        (decP wsSpanP (fun i2 =>
          match i2.rest with
          | '*' :: r2 => .ok (TravOp.fullSplat ⟨(), {}, none⟩) ⟨r2, i2.off + 1⟩
          | _ => pmap TravOp.index (exprP n) i2) wsSpanP)
        (fun op => pmap (fun _ => op) (cutChar ']'))
        ⟨r, i.off + 1⟩
    | _ :: _ => .back ⟨i.off + 1, []⟩
    | [] => .back ⟨i.off, []⟩

/-- `unary_op`: record the operator and the following trivia span, then
parse the operand term. -/
def unaryOpP : Nat → EState → P EState
  | 0, _ => fuelCut
  | n + 1, st => fun i =>
    match unaryOperatorP i with
    | .ok op i1 =>
      let j := spScan i1
      exprTermP n (st.onUnaryOp ⟨op, some (i.off, i1.off)⟩ (i1.off, j.off)) j
    | .back e => .back e
    | .cut e => .cut e

/-- `binary_op`: a spanned operator then a prefix-decorated full expression
as right-hand side. -/
def binaryOpP : Nat → EState → P EState
  | 0, _ => fuelCut
  | n + 1, st => fun i =>
    match binaryOperatorP i with
    | .ok op i1 =>
      match prefixDecP spSpanP (exprP n) i1 with
      | .ok rhs i2 => .ok (st.onBinaryOp ⟨op, some (i.off, i1.off)⟩ rhs) i2
      | .back e => .back e
      | .cut e => .cut e
    | .back e => .back e
    | .cut e => .cut e

/-- `conditional`. -/
def conditionalP : Nat → EState → P EState
  | 0, _ => fuelCut
  | n + 1, st => fun i =>
    match pchar '?' i with
    | .ok _ i1 =>
      match decP spSpanP (exprP n) spSpanP i1 with
      | .ok tE i2 =>
        match cutChar ':' i2 with
        | .ok _ i3 =>
          match prefixDecP spSpanP (exprP n) i3 with
          | .ok fE i4 => .ok (st.onConditional tE fE) i4
          | .back e => .back e
          | .cut e => .cut e
        | .back e => .back e
        | .cut e => .cut e
      | .back e => .back e
      | .cut e => .cut e
    | .back e => .back e
    | .cut e => .cut e

/-- `array`. -/
def arrayP : Nat → EState → P EState
  | 0, _ => fuelCut
  | n + 1, st => fun i =>
    match pchar '[' i with
    | .ok _ i1 =>
      match forExprOrItems (forListExprP n st) (arrayItemsP n st) i1 with
      | .ok st' i2 => pmap (fun _ => st') (cutChar ']') i2
      | .back e => .back e
      | .cut e => .cut e
    | .back e => .back e
    | .cut e => .cut e

/-- `for_list_expr`. -/
def forListExprP : Nat → EState → P EState
  | 0, _ => fuelCut
  | n + 1, st => fun i =>
    match forIntroP n i with
    | .ok intro i1 =>
      match decP wsSpanP (exprP n) wsSpanP i1 with
      | .ok v i2 =>
        match popt (forCondP n) i2 with
        | .ok cond i3 =>
          .ok (st.onExprTerm (.forE ⟨intro, none, v, false, cond⟩ {} none)) i3
        | .back e => .back e
        | .cut e => .cut e
      | .back e => .back e
      | .cut e => .cut e
    | .back e => .back e
    | .cut e => .cut e

/-- One array element: `decorated(ws, preceded(not(']'), expr), ws)`. -/
def arrayElemP : Nat → P Expression
  | 0 => fuelCut
  | n + 1 =>
    decP wsSpanP (fun i =>
      match i.rest with
      | ']' :: _ => .back ⟨i.off, []⟩
      | _ => exprP n i) wsSpanP

def arrayItemsLoop : Nat → List Expression → P (List Expression)
  | 0, _ => fuelCut
  | n + 1, acc => fun i =>
    match pchar ',' i with
    | .ok _ i1 =>
      match arrayElemP n i1 with
      | .ok e i2 => arrayItemsLoop n (acc ++ [e]) i2
      | .back _ => .ok acc i
      | .cut e => .cut e
    | .back _ => .ok acc i
    | .cut e => .cut e

/-- `array_items`: comma-separated elements, an optional trailing comma, and
the trailing trivia before `]`. -/
def arrayItemsP : Nat → EState → P EState
  | 0, _ => fuelCut
  | n + 1, st => fun i =>
    match (match arrayElemP n i with
           | .ok e i1 => arrayItemsLoop n [e] i1
           | .back _ => .ok [] i
           | .cut e => .cut e) with
    | .ok values i2 =>
      match popt (pchar ',') i2 with
      | .ok comma i3 =>
        match rawWsP i3 with
        | .ok trailing i4 =>
          .ok (st.onExprTerm (.arrE values comma.isSome trailing {} none)) i4
        | .back e => .back e
        | .cut e => .cut e
      | .back e => .back e
      | .cut e => .cut e
    | .back e => .back e
    | .cut e => .cut e

/-- `object`. -/
def objectP : Nat → EState → P EState
  | 0, _ => fuelCut
  | n + 1, st => fun i =>
    match pchar '\x7b' i with
    | .ok _ i1 =>
      match forExprOrItems (forObjectExprP n st) (objectItemsP n st) i1 with
      | .ok st' i2 => pmap (fun _ => st') (cutChar '\x7d') i2
      | .back e => .back e
      | .cut e => .cut e
    | .back e => .back e
    | .cut e => .cut e

/-- `for_object_expr`. -/
def forObjectExprP : Nat → EState → P EState
  | 0, _ => fuelCut
  | n + 1, st => fun i =>
    match forIntroP n i with
    | .ok intro i1 =>
      match decP wsSpanP (exprP n) wsSpanP i1 with
      | .ok keyE i2 =>
        match cutTag "=>" i2 with
        | .ok _ i3 =>
          match decP wsSpanP (exprP n) wsSpanP i3 with
          | .ok valE i4 =>
            match popt (ptag (chars "...")) i4 with
            | .ok grouping i5 =>
              match popt (forCondP n) i5 with
              | .ok cond i6 =>
                .ok (st.onExprTerm
                  (.forE ⟨intro, some keyE, valE, grouping.isSome, cond⟩ {} none)) i6
              | .back e => .back e
              | .cut e => .cut e
            | .back e => .back e
            | .cut e => .cut e
          | .back e => .back e
          | .cut e => .cut e
        | .back e => .back e
        | .cut e => .cut e
      | .back e => .back e
      | .cut e => .cut e
    | .back e => .back e
    | .cut e => .cut e

/-- The item loop of `object_items`. -/
def objectItemsLoop : Nat → EState → List (OItem Expression) → P EState
  | 0, _, _ => fuelCut
  | n + 1, st, items => fun i =>
    match rawWsP i with
    | .ok trailing i1 =>
      match i1.rest with
      | [] => .back ⟨i1.off, []⟩
      | c :: _ =>
        if c = '\x7d' then
          .ok (st.onExprTerm (.objE items trailing {} none)) i1
        else
          match objectKeyP n i1 with
          | .ok key0 i2 =>
            match objectValueP n i2 with
            | .ok av i3 =>
              let key := setPre key0 trailing
              match i3.rest with
              | [] => .back ⟨i3.off, []⟩
              | c2 :: _ =>
                if c2 = '\x7d' then
                  .ok (st.onExprTerm
                    (.objE (items ++ [⟨key, av.1, av.2, .none⟩]) (.owned []) {} none)) i3
                else if c2 = '\r' then
                  match crlfP i3 with
                  | .ok _ i4 => objectItemsLoop n st (items ++ [⟨key, av.1, av.2, .newline⟩]) i4
                  | .back e => .back e
                  | .cut e => .cut e
                else if c2 = '\n' then
                  objectItemsLoop n st (items ++ [⟨key, av.1, av.2, .newline⟩]) (i3.adv 1)
                else if c2 = ',' then
                  objectItemsLoop n st (items ++ [⟨key, av.1, av.2, .comma⟩]) (i3.adv 1)
                else if c2 = '#' ∨ c2 = '/' then
                  match lineCommentP i3 with
                  | .ok csp i4 =>
                    let sufStart := match (exprDecor av.2).suf with
                      | some (.fromSpan lo _) => lo
                      | some (.owned _) => csp.1
                      | none => csp.1
                    let v' := setSuf av.2 (.fromSpan sufStart csp.2)
                    match lineEndingP i4 with
                    | .ok _ i5 => objectItemsLoop n st (items ++ [⟨key, av.1, v', .newline⟩]) i5
                    | .back e => .back e
                    | .cut e => .cut e
                  | .back e => .back e
                  | .cut e => .cut e
                else
                  .cut ⟨i3.off,
                    [.expression "object item", .expected (.ch '\x7d'),
                     .expected (.ch ','), .expected (.ch '\n')]⟩
            | .back e => .back e
            | .cut e => .cut e
          | .back e => .back e
          | .cut e => .cut e
    | .back e => .back e
    | .cut e => .cut e

/-- `object_items`. -/
def objectItemsP : Nat → EState → P EState
  | 0, _ => fuelCut
  | n + 1, st => objectItemsLoop n st []

/-- `object_key`: an expression that collapsed to a bare variable becomes an
identifier key (dropping the variable's own decor and span), anything else
stays an expression key. -/
def objectKeyP : Nat → P (OKey Expression)
  | 0 => fuelCut
  | n + 1 =>
    suffixDecP (pmap (fun e =>
      match e with
      | .varE id _ _ => OKey.ident ⟨id, {}, none⟩
      | e => OKey.keyExpr e) (exprP n)) spSpanP

/-- `object_value`: assignment marker then decorated value expression. -/
def objectValueP : Nat → P (OVAssign × Expression)
  | 0 => fuelCut
  | n + 1 => fun i =>
    match objectValueAssignP i with
    | .ok a i1 =>
      match decP spSpanP (exprP n) spSpanP i1 with
      | .ok e i2 => .ok (a, e) i2
      | .back e => .back e
      | .cut e => .cut e
    | .back e => .back e
    | .cut e => .cut e

/-- `for_intro`. -/
def forIntroP : Nat → P (ForIntroF Expression)
  | 0 => fuelCut
  | n + 1 =>
    prefixDecP wsSpanP (fun i =>
      match ptag (chars "for") i with
      | .ok _ i1 =>
        match decP wsSpanP cutIdentP wsSpanP i1 with
        | .ok first i2 =>
          match popt (fun i' =>
              match pchar ',' i' with
              | .ok _ i'' => decP wsSpanP cutIdentP wsSpanP i''
              | .back e => .back e
              | .cut e => .cut e) i2 with
          | .ok second i3 =>
            match cutTag "in" i3 with
            | .ok _ i4 =>
              match decP wsSpanP (exprP n) wsSpanP i4 with
              | .ok coll i5 =>
                match cutChar ':' i5 with
                | .ok _ i6 =>
                  .ok (match second with
                    | some snd => ⟨some first, snd, coll, {}, none⟩
                    | none => ⟨none, first, coll, {}, none⟩) i6
                | .back e => .back e
                | .cut e => .cut e
              | .back e => .back e
              | .cut e => .cut e
            | .back e => .back e
            | .cut e => .cut e
          | .back e => .back e
          | .cut e => .cut e
        | .back e => .back e
        | .cut e => .cut e
      | .back e => .back e
      | .cut e => .cut e)

/-- `for_cond`. -/
def forCondP : Nat → P (ForCondF Expression)
  | 0 => fuelCut
  | n + 1 =>
    prefixDecP wsSpanP (fun i =>
      match ptag (chars "if") i with
      | .ok _ i1 =>
        pmap (fun e => (⟨e, {}, none⟩ : ForCondF Expression))
          (decP wsSpanP (exprP n) wsSpanP) i1
      | .back e => .back e
      | .cut e => .cut e)

/-- `parenthesis`. -/
def parenthesisP : Nat → EState → P EState
  | 0, _ => fuelCut
  | n + 1, st => fun i =>
    match cutChar '(' i with
    | .ok _ i1 =>
      match decP wsSpanP (exprP n) wsSpanP i1 with
      | .ok inner i2 =>
        match cutChar ')' i2 with
        | .ok _ i3 => .ok (st.onExprTerm (.parenE inner {} none)) i3
        | .back e => .back e
        | .cut e => .cut e
      | .back e => .back e
      | .cut e => .cut e
    | .back e => .back e
    | .cut e => .cut e

/-- `heredoc`. -/
def heredocP : Nat → EState → P EState
  | 0, _ => fuelCut
  | n + 1, st => fun i =>
    match heredocStartP i with
    | .ok sd i1 =>
      match tElemsP n false (some sd.2) true [] i1 with
      | .ok elems i2 =>
        match rawSpace0P i2 with
        | .ok trailing i3 =>
          match pctx (.expected (.desc "heredoc end delimiter")) (pcut (ptag sd.2)) i3 with
          | .ok _ i4 =>
            .ok (st.onExprTerm
              (.heredocE sd.2 sd.1 elems (some (i1.off, i2.off)) trailing {} none)) i4
          | .back e => .back e
          | .cut e => .cut e
        | .back e => .back e
        | .cut e => .cut e
      | .back e => .back e
      | .cut e => .cut e
    | .back e => .back e
    | .cut e => .cut e

/-- `identlike`: identifier, then an optional prefix-decorated argument
list; the reserved words become literals only without an argument list. -/
def identlikeP : Nat → EState → P EState
  | 0, _ => fuelCut
  | n + 1, st => fun i =>
    match strIdentP i with
    | .ok id i1 =>
      match popt (prefixDecP wsSpanP (funcArgsP n)) i1 with
      | .ok fa i2 =>
        let e := match fa with
          | some args => Expression.funcE ⟨id, {}, some (i.off, i1.off)⟩ args {} none
          | none =>
            if id = chars "null" then .nullE {} none
            else if id = chars "true" then .boolE true {} none
            else if id = chars "false" then .boolE false {} none
            else .varE id {} none
        .ok (st.onExprTerm e) i2
      | .back e => .back e
      | .cut e => .cut e
    | .back e => .back e
    | .cut e => .cut e

/-- One function argument: `decorated(ws, preceded(peek(none_of(",.)")),
expr), ws)`. -/
def funcArgElemP : Nat → P Expression
  | 0 => fuelCut
  | n + 1 =>
    decP wsSpanP (fun i =>
      match i.rest with
      | c :: _ =>
        if c = ',' ∨ c = '.' ∨ c = ')' then .back ⟨i.off, []⟩
        else exprP n i
      | [] => .back ⟨i.off, []⟩) wsSpanP

def funcArgsLoop : Nat → List Expression → P (List Expression)
  | 0, _ => fuelCut
  | n + 1, acc => fun i =>
    match pchar ',' i with
    | .ok _ i1 =>
      match funcArgElemP n i1 with
      | .ok e i2 => funcArgsLoop n (acc ++ [e]) i2
      | .back _ => .ok acc i
      | .cut e => .cut e
    | .back _ => .ok acc i
    | .cut e => .cut e

/-- `func_args`: comma-separated arguments with an optional trailing comma
or ellipsis, never both. -/
def funcArgsP : Nat → P (FuncArgsF Expression)
  | 0 => fuelCut
  | n + 1 => fun i =>
    match pchar '(' i with
    | .ok _ i1 =>
      match ((match funcArgElemP n i1 with
             | .ok e i2 =>
               match funcArgsLoop n [e] i2 with
               | .ok args i3 =>
                 match popt trailerP i3 with
                 | .ok tr i4 => .ok (some (args, tr)) i4
                 | .back e => .back e
                 | .cut e => .cut e
               | .back e => .back e
               | .cut e => .cut e
             | .back _ => .ok none i1
             | .cut e => .cut e) :
            Res (Option (List Expression × Option Bool))) with
      | .ok argsOpt i5 =>
        match rawWsP i5 with
        | .ok trailing i6 =>
          pmap (fun _ =>
            match argsOpt with
            | some (args, some true) =>
              { args := args, expandFinal := true, trailing := trailing }
            | some (args, some false) =>
              { args := args, trailingComma := true, trailing := trailing }
            | some (args, none) => { args := args, trailing := trailing }
            | none => ({ trailing := trailing } : FuncArgsF Expression)) (cutChar ')') i6
        | .back e => .back e
        | .cut e => .cut e
      | .back e => .back e
      | .cut e => .cut e
    | .back e => .back e
    | .cut e => .cut e

/-- `string_template` (modelled from the spec, §4.4): quote, template
elements, closing quote. -/
def stringTemplateP : Nat → P (List (TElem Expression))
  | 0 => fuelCut
  | n + 1 => fun i =>
    match pchar '"' i with
    | .ok _ i1 =>
      match tElemsP n true none false [] i1 with
      | .ok elems i2 =>
        match pchar '"' i2 with
        | .ok _ i3 => .ok elems i3
        | .back e => .back e
        | .cut e => .cut e
      | .back e => .back e
      | .cut e => .cut e
    | .back e => .back e
    | .cut e => .cut e

/-- The template element loop (modelled from the spec, §4.4).  Arguments:
stop at an unescaped quote?, heredoc end delimiter, at a line start?,
elements so far. -/
def tElemsP : Nat → Bool → Option Chars → Bool → List (TElem Expression) →
    P (List (TElem Expression))
  | 0, _, _, _, _ => fuelCut
  | n + 1, sq, delim, atLS, acc => fun i =>
    match i.rest with
    | [] => .ok acc i
    | c :: r =>
      if atLS && delimLineAt delim (c :: r) then .ok acc i
      else if sq && c = '"' then .ok acc i
      else
        match c :: r with
        | '$' :: '\x7b' :: _ =>
          (match interpP n i with
           | .ok el i' => tElemsP n sq delim false (acc ++ [el]) i'
           | .back e => .back e
           | .cut e => .cut e)
        | '%' :: '\x7b' :: r2 =>
          (match dirKwAt r2 with
           | some "if" =>
             (match dirIfP n sq delim i with
              | .ok el i' => tElemsP n sq delim false (acc ++ [el]) i'
              | .back e => .back e
              | .cut e => .cut e)
           | some "for" =>
             (match dirForP n sq delim i with
              | .ok el i' => tElemsP n sq delim false (acc ++ [el]) i'
              | .back e => .back e
              | .cut e => .cut e)
           | _ => .ok acc i)
        | _ =>
          let k := litLen (c :: r).length sq delim atLS (c :: r)
          if k = 0 then .ok acc i
          else
            tElemsP n sq delim (((c :: r).take k).getLast? = some '\n')
              (acc ++ [.lit ((c :: r).take k) (some (i.off, i.off + k))]) (i.adv k)

/-- A template interpolation `${ [~] expr [~] }` (modelled, §4.4). -/
def interpP : Nat → P (TElem Expression)
  | 0 => fuelCut
  | n + 1 => fun i =>
    match ptag (chars "$\x7b") i with
    | .ok _ i1 =>
      match popt (pchar '~') i1 with
      | .ok sL i2 =>
        match decP wsSpanP (exprP n) wsSpanP i2 with
        | .ok e i3 =>
          match popt (pchar '~') i3 with
          | .ok sR i4 =>
            match cutChar '\x7d' i4 with
            | .ok _ i5 => .ok (.interp e sL.isSome sR.isSome (some (i.off, i5.off))) i5
            | .back e => .back e
            | .cut e => .cut e
          | .back e => .back e
          | .cut e => .cut e
        | .back e => .back e
        | .cut e => .cut e
      | .back e => .back e
      | .cut e => .cut e
    | .back e => .back e
    | .cut e => .cut e

/-- A template `if` directive (modelled, §4.4). -/
def dirIfP : Nat → Bool → Option Chars → P (TElem Expression)
  | 0, _, _ => fuelCut
  | n + 1, sq, delim => fun i =>
    match ptag (chars "%\x7b") i with
    | .ok _ i1 =>
      match popt (pchar '~') i1 with
      | .ok s1 i2 =>
        match ptag (chars "if") (wsScan i2) with
        | .ok _ i3 =>
          match decP wsSpanP (exprP n) wsSpanP i3 with
          | .ok cond i4 =>
            match popt (pchar '~') i4 with
            | .ok s2 i5 =>
              match cutChar '\x7d' i5 with
              | .ok _ i6 =>
                match tElemsP n sq delim false [] i6 with
                | .ok thenT i7 =>
                  (match popt (dirMarkerP "else") i7 with
                   | .ok (some estraw) i8 =>
                     (match tElemsP n sq delim false [] i8 with
                      | .ok elseT i9 =>
                        (match pcut (dirMarkerP "endif") i9 with
                         | .ok fstr i10 =>
                           .ok (.dirIf cond thenT (some elseT)
                             [s1.isSome, s2.isSome, estraw.1, estraw.2, fstr.1, fstr.2]
                             (some (i.off, i10.off))) i10
                         | .back e => .back e
                         | .cut e => .cut e)
                      | .back e => .back e
                      | .cut e => .cut e)
                   | .ok none i8 =>
                     (match pcut (dirMarkerP "endif") i8 with
                      | .ok fstr i9 =>
                        .ok (.dirIf cond thenT none
                          [s1.isSome, s2.isSome, fstr.1, fstr.2]
                          (some (i.off, i9.off))) i9
                      | .back e => .back e
                      | .cut e => .cut e)
                   | .back e => .back e
                   | .cut e => .cut e)
                | .back e => .back e
                | .cut e => .cut e
              | .back e => .back e
              | .cut e => .cut e
            | .back e => .back e
            | .cut e => .cut e
          | .back e => .back e
          | .cut e => .cut e
        | .back e => .back e
        | .cut e => .cut e
      | .back e => .back e
      | .cut e => .cut e
    | .back e => .back e
    | .cut e => .cut e

/-- A template `for` directive (modelled, §4.4). -/
def dirForP : Nat → Bool → Option Chars → P (TElem Expression)
  | 0, _, _ => fuelCut
  | n + 1, sq, delim => fun i =>
    match ptag (chars "%\x7b") i with
    | .ok _ i1 =>
      match popt (pchar '~') i1 with
      | .ok s1 i2 =>
        match ptag (chars "for") (wsScan i2) with
        | .ok _ i3 =>
          match decP wsSpanP cutIdentP wsSpanP i3 with
          | .ok first i4 =>
            match popt (fun i' =>
                match pchar ',' i' with
                | .ok _ i'' => decP wsSpanP cutIdentP wsSpanP i''
                | .back e => .back e
                | .cut e => .cut e) i4 with
            | .ok second i5 =>
              match cutTag "in" i5 with
              | .ok _ i6 =>
                match decP wsSpanP (exprP n) wsSpanP i6 with
                | .ok coll i7 =>
                  match popt (pchar '~') i7 with
                  | .ok s2 i8 =>
                    match cutChar '\x7d' i8 with
                    | .ok _ i9 =>
                      match tElemsP n sq delim false [] i9 with
                      | .ok body i10 =>
                        (match pcut (dirMarkerP "endfor") i10 with
                         | .ok fstr i11 =>
                           .ok (match second with
                             | some snd =>
                               .dirFor (some first) snd coll body
                                 [s1.isSome, s2.isSome, fstr.1, fstr.2]
                                 (some (i.off, i11.off))
                             | none =>
                               .dirFor none first coll body
                                 [s1.isSome, s2.isSome, fstr.1, fstr.2]
                                 (some (i.off, i11.off))) i11
                         | .back e => .back e
                         | .cut e => .cut e)
                      | .back e => .back e
                      | .cut e => .cut e
                    | .back e => .back e
                    | .cut e => .cut e
                  | .back e => .back e
                  | .cut e => .cut e
                | .back e => .back e
                | .cut e => .cut e
              | .back e => .back e
              | .cut e => .cut e
            | .back e => .back e
            | .cut e => .cut e
          | .back e => .back e
          | .cut e => .cut e
        | .back e => .back e
        | .cut e => .cut e
      | .back e => .back e
      | .cut e => .cut e
    | .back e => .back e
    | .cut e => .cut e

end

/-! ## The structure parser (`structure.rs`) -/

/-- `attribute_expr`: `=` (cut) then a prefix-decorated expression. -/
def attributeExprP (n : Nat) : P Expression := fun i =>
  match pctx (.expression "attribute") (cutChar '=') i with
  | .ok _ i1 => prefixDecP spSpanP (exprP n) i1
  | .back e => .back e
  | .cut e => .cut e

/-- `block_label`. -/
def blockLabelP : P BlockLabelS :=
  palt (pmap (fun s => BlockLabelS.strL ⟨s, {}, none⟩) stringP)
    (pmap BlockLabelS.identL identP)

/-- `block_labels`: `repeat(0.., suffix_decorated(block_label, sp))`. -/
def blockLabelsLoop : Nat → List BlockLabelS → P (List BlockLabelS)
  | 0, _ => fuelCut
  | n + 1, acc => fun i =>
    match suffixDecP blockLabelP spSpanP i with
    | .ok l i' => blockLabelsLoop n (acc ++ [l]) i'
    | .back _ => .ok acc i
    | .cut e => .cut e

/-- The attribute of a one-line block body. -/
def onelineAttrP (n : Nat) : P StructureS := fun i =>
  match suffixDecP identP spSpanP i with
  | .ok key i1 =>
    match attributeExprP n i1 with
    | .ok v i2 => .ok (.attr key v {} none) i2
    | .back e => .back e
    | .cut e => .cut e
  | .back e => .back e
  | .cut e => .cut e

mutual

/-- `body`: the item loop, its span, and the trailing trivia suffix. -/
def bodyP : Nat → P BodyS
  | 0 => fuelCut
  | n + 1 => fun i =>
    match bodyLoopP n {} i with
    | .ok st i1 =>
      match rawWsP i1 with
      | .ok suffix i2 =>
        .ok { sts := st.intoBody.sts, preferOneline := false,
              d := { suf := some suffix }, sp := some (i.off, i1.off) } i2
      | .back e => .back e
      | .cut e => .cut e
    | .back e => .back e
    | .cut e => .cut e

/-- `repeat(0.., body item)`. -/
def bodyLoopP : Nat → BState → P BState
  | 0, _ => fuelCut
  | n + 1, st => fun i =>
    match bodyItemP n st i with
    | .ok st' i' => bodyLoopP n st' i'
    | .back _ => .ok st i
    | .cut e => .cut e

/-- One body item: leading trivia, a structure, trailing trivia with an
optional line comment, then a hard newline-or-eof. -/
def bodyItemP : Nat → BState → P BState
  | 0, _ => fuelCut
  | n + 1, st => fun i =>
    match wsSpanP i with
    | .ok wsSp i1 =>
      match structureP n (st.onWs wsSp) i1 with
      | .ok st1 i2 =>
        match spOptCommentSpanP i2 with
        | .ok sufSp i3 =>
          match pctx (.expected (.desc "eof")) (pctx (.expected (.desc "newline"))
              (pcut (palt (pmap (fun _ => ()) lineEndingP) peof))) i3 with
          | .ok _ i4 => .ok ((st1.onWs sufSp).onLineEnding) i4
          | .back e => .back e
          | .cut e => .cut e
        | .back e => .back e
        | .cut e => .cut e
      | .back e => .back e
      | .cut e => .cut e
    | .back e => .back e
    | .cut e => .cut e

/-- `structure`: identifier, trivia, then dispatch on `=` (attribute, with
the redefinition check at the structure's start offset), `{` (block) or a
label (block with labels). -/
def structureP : Nat → BState → P BState
  | 0, _ => fuelCut
  | n + 1, st => fun i =>
    match i.rest with
    | c :: _ =>
      if isIdStart c then
        match cutStrIdentP i with
        | .ok id i1 =>
          match rawSpP i1 with
          | .ok suffix i2 =>
            match i2.rest with
            | [] => .back ⟨i2.off, []⟩
            | ch :: _ =>
              if ch = '=' then
                if st.isRedefined id then
                  .cut ⟨i.off, [.expression "attribute",
                    .expected (.desc "unique attribute key; found redefined attribute")]⟩
                else
                  match attributeExprP n i2 with
                  | .ok v i3 =>
                    let key : D Chars := ⟨id, { suf := some suffix }, none⟩
                    .ok ((st.addKey id).onStructure
                      (.attr key v {} (some (i.off, i3.off)))) i3
                  | .back e => .back e
                  | .cut e => .cut e
              else if ch = '\x7b' then
                match blockBodyP n i2 with
                | .ok body i3 =>
                  let key : D Chars := ⟨id, { suf := some suffix }, none⟩
                  .ok (st.onStructure
                    (.block key [] body {} (some (i.off, i3.off)))) i3
                | .back e => .back e
                | .cut e => .cut e
              else if ch = '"' ∨ isIdStart ch then
                match blockLabelsLoop n [] i2 with
                | .ok labels i3 =>
                  match blockBodyP n i3 with
                  | .ok body i4 =>
                    let key : D Chars := ⟨id, { suf := some suffix }, none⟩
                    .ok (st.onStructure
                      (.block key labels body {} (some (i.off, i4.off)))) i4
                  | .back e => .back e
                  | .cut e => .cut e
                | .back e => .back e
                | .cut e => .cut e
              else
                .cut ⟨i2.off, [.expression "structure", .expected (.ch '\x7b'),
                  .expected (.ch '='), .expected (.ch '"'),
                  .expected (.desc "identifier")]⟩
          | .back e => .back e
          | .cut e => .cut e
        | .back e => .back e
        | .cut e => .cut e
      else .back ⟨i.off, []⟩
    | [] => .back ⟨i.off, []⟩

/-- `block_body`: `{`, then a multiline body (after a line ending) or a
one-line body with at most one attribute, then `}`. -/
def blockBodyP : Nat → P BodyS
  | 0 => fuelCut
  | n + 1 => fun i =>
    match cutChar '\x7b' i with
    | .ok _ i1 =>
      match palt
        (prefixDecP spOptCommentSpanP (fun i2 =>
          match lineEndingP i2 with
          | .ok _ i3 => bodyP n i3
          | .back e => .back e
          | .cut e => .cut e))
        (fun i2 =>
          match popt (decP spSpanP (onelineAttrP n) spSpanP) i2 with
          | .ok attr i3 =>
            match rawSpP i3 with
            | .ok suffix i4 =>
              .ok ({ sts := match attr with
                       | some a => [a]
                       | none => [],
                     preferOneline := true, d := { suf := some suffix },
                     sp := none } : BodyS) i4
            | .back e => .back e
            | .cut e => .cut e
          | .back e => .back e
          | .cut e => .cut e) i1 with
      | .ok body i2 =>
        match pctx (.expected (.desc "identifier")) (pctx (.expected (.ch '\n'))
            (pctx (.expression "block body") (cutChar '\x7d'))) i2 with
        | .ok _ i3 => .ok body i3
        | .back e => .back e
        | .cut e => .cut e
      | .back e => .back e
      | .cut e => .cut e
    | .back e => .back e
    | .cut e => .cut e

end

/-- `template` (the top-level production of `parse_template`), spanned. -/
def templateTopP (n : Nat) : P TemplateS := fun i =>
  match tElemsP n false none false [] i with
  | .ok elems i' => .ok ⟨elems, some (i.off, i'.off)⟩ i'
  | .back e => .back e
  | .cut e => .cut e

/-! ## Public entry points (`mod.rs`) -/

/-- `parse_complete`: run the parser followed by `eof`; any error becomes a
public error value. -/
def parseComplete {α : Type} (p : P α) (s : Chars) : Except Err α :=
  match p ⟨s, 0⟩ with
  | .ok a i =>
    match peof i with
    | .ok _ _ => .ok a
    | .back e => .error e
    | .cut e => .error e
  | .back e => .error e
  | .cut e => .error e

/-- Fuel amply sufficient for any input: the parser consumes at least one
character within any chain of 64 nested calls. -/
def fuelFor (s : Chars) : Nat := 64 * (s.length + 2)

/-! ## The despan pass

Modelled from the spec (§4.7): after a successful parse every `RawString`
byte range is materialized into an owned copy of the input text; node spans
remain. -/

def despanRS (src : Chars) : RawString → RawString
  | .fromSpan lo hi => .owned ((src.drop lo).take (hi - lo))
  | .owned s => .owned s

def despanDecor (src : Chars) (d : Decor) : Decor :=
  { pre := d.pre.map (despanRS src), suf := d.suf.map (despanRS src) }

def despanD {α : Type} (src : Chars) (x : D α) : D α :=
  { x with d := despanDecor src x.d }

mutual

def despanE : Nat → Chars → Expression → Expression
  | 0, _, e => e
  | n + 1, src, e =>
    match e with
    | .nullE d sp => .nullE (despanDecor src d) sp
    | .boolE b d sp => .boolE b (despanDecor src d) sp
    | .numE v rep d sp => .numE v (rep.map (despanRS src)) (despanDecor src d) sp
    | .strE s d sp => .strE s (despanDecor src d) sp
    | .varE id d sp => .varE id (despanDecor src d) sp
    | .tmplE es d sp => .tmplE (es.map (despanTElem n src)) (despanDecor src d) sp
    | .heredocE dl ind es tsp tr d sp =>
      .heredocE dl ind (es.map (despanTElem n src)) tsp (despanRS src tr)
        (despanDecor src d) sp
    | .parenE inner d sp => .parenE (despanE n src inner) (despanDecor src d) sp
    | .arrE items tc tr d sp =>
      .arrE (items.map (despanE n src)) tc (despanRS src tr) (despanDecor src d) sp
    | .objE items tr d sp =>
      .objE (items.map (despanOItem n src)) (despanRS src tr) (despanDecor src d) sp
    | .forE f d sp => .forE (despanForExpr n src f) (despanDecor src d) sp
    | .condE c t f d sp =>
      .condE (despanE n src c) (despanE n src t) (despanE n src f) (despanDecor src d) sp
    | .funcE id args d sp =>
      .funcE (despanD src id) (despanFuncArgs n src args) (despanDecor src d) sp
    | .unE op e1 d sp => .unE op (despanE n src e1) (despanDecor src d) sp
    | .binE l op r d sp => .binE (despanE n src l) op (despanE n src r) (despanDecor src d) sp
    | .travE e1 ops d sp =>
      .travE (despanE n src e1) (ops.map (despanTravOp n src)) (despanDecor src d) sp

def despanTElem : Nat → Chars → TElem Expression → TElem Expression
  | 0, _, t => t
  | n + 1, src, t =>
    match t with
    | .lit s sp => .lit s sp
    | .interp e sL sR sp => .interp (despanE n src e) sL sR sp
    | .dirIf cond thenT elseT strips sp =>
      .dirIf (despanE n src cond) (thenT.map (despanTElem n src))
        (elseT.map (List.map (despanTElem n src))) strips sp
    | .dirFor kv vv coll body strips sp =>
      .dirFor (kv.map (despanD src)) (despanD src vv) (despanE n src coll)
        (body.map (despanTElem n src)) strips sp

def despanOItem : Nat → Chars → OItem Expression → OItem Expression
  | 0, _, it => it
  | n + 1, src, it =>
    { key := match it.key with
        | .ident id => .ident (despanD src id)
        | .keyExpr e => .keyExpr (despanE n src e)
      assign := it.assign
      value := despanE n src it.value
      term := it.term }

def despanForExpr : Nat → Chars → ForExprF Expression → ForExprF Expression
  | 0, _, f => f
  | n + 1, src, f =>
    { intro := { keyVar := f.intro.keyVar.map (despanD src)
                 valVar := despanD src f.intro.valVar
                 coll := despanE n src f.intro.coll
                 d := despanDecor src f.intro.d
                 sp := f.intro.sp }
      keyExpr := f.keyExpr.map (despanE n src)
      valExpr := despanE n src f.valExpr
      grouping := f.grouping
      cond := f.cond.map (fun c =>
        { e := despanE n src c.e, d := despanDecor src c.d, sp := c.sp }) }

def despanFuncArgs : Nat → Chars → FuncArgsF Expression → FuncArgsF Expression
  | 0, _, a => a
  | n + 1, src, a =>
    { a with args := a.args.map (despanE n src)
             trailing := despanRS src a.trailing
             d := despanDecor src a.d }

def despanTravOp : Nat → Chars → D (TravOp Expression) → D (TravOp Expression)
  | 0, _, x => x
  | n + 1, src, x =>
    { v := match x.v with
        | .attrSplat s => .attrSplat (despanD src s)
        | .fullSplat s => .fullSplat (despanD src s)
        | .getAttr id => .getAttr (despanD src id)
        | .legacyIndex k => .legacyIndex (despanD src k)
        | .index e => .index (despanE n src e)
      d := despanDecor src x.d
      sp := x.sp }

end

def despanLabel (src : Chars) : BlockLabelS → BlockLabelS
  | .strL s => .strL (despanD src s)
  | .identL id => .identL (despanD src id)

mutual

def despanStruct : Nat → Chars → StructureS → StructureS
  | 0, _, s => s
  | n + 1, src, .attr key v d sp =>
    .attr (despanD src key) (despanE n src v) (despanDecor src d) sp
  | n + 1, src, .block id labels body d sp =>
    .block (despanD src id) (labels.map (despanLabel src)) (despanBody n src body)
      (despanDecor src d) sp

def despanBody : Nat → Chars → BodyS → BodyS
  | 0, _, b => b
  | n + 1, src, b =>
    { b with sts := b.sts.map (despanStruct n src), d := despanDecor src b.d }

end

def despanTemplate (n : Nat) (src : Chars) (t : TemplateS) : TemplateS :=
  { t with elems := t.elems.map (despanTElem n src) }

/-! ## Span erasure

Forgetting every recorded span (and nothing else).  Two despanned trees that
agree after span erasure carry the same decor text, the same lexical
reprs and the same shape, so any renderer that reproduces input text from
the tree maps them to the same output. -/

def eraseD {α : Type} (x : D α) : D α := { x with sp := none }

mutual

def eraseE : Nat → Expression → Expression
  | 0, e => e
  | n + 1, e =>
    match e with
    | .nullE d _ => .nullE d none
    | .boolE b d _ => .boolE b d none
    | .numE v rep d _ => .numE v rep d none
    | .strE s d _ => .strE s d none
    | .varE id d _ => .varE id d none
    | .tmplE es d _ => .tmplE (es.map (eraseTElem n)) d none
    | .heredocE dl ind es _ tr d _ => .heredocE dl ind (es.map (eraseTElem n)) none tr d none
    | .parenE inner d _ => .parenE (eraseE n inner) d none
    | .arrE items tc tr d _ => .arrE (items.map (eraseE n)) tc tr d none
    | .objE items tr d _ => .objE (items.map (eraseOItem n)) tr d none
    | .forE f d _ => .forE (eraseForExpr n f) d none
    | .condE c t f d _ => .condE (eraseE n c) (eraseE n t) (eraseE n f) d none
    | .funcE id args d _ => .funcE (eraseD id) (eraseFuncArgs n args) d none
    | .unE op e1 d _ => .unE { op with sp := none } (eraseE n e1) d none
    | .binE l op r d _ => .binE (eraseE n l) { op with sp := none } (eraseE n r) d none
    | .travE e1 ops d _ => .travE (eraseE n e1) (ops.map (eraseTravOp n)) d none

def eraseTElem : Nat → TElem Expression → TElem Expression
  | 0, t => t
  | n + 1, t =>
    match t with
    | .lit s _ => .lit s none
    | .interp e sL sR _ => .interp (eraseE n e) sL sR none
    | .dirIf cond thenT elseT strips _ =>
      .dirIf (eraseE n cond) (thenT.map (eraseTElem n))
        (elseT.map (List.map (eraseTElem n))) strips none
    | .dirFor kv vv coll body strips _ =>
      .dirFor (kv.map eraseD) (eraseD vv) (eraseE n coll)
        (body.map (eraseTElem n)) strips none

def eraseOItem : Nat → OItem Expression → OItem Expression
  | 0, it => it
  | n + 1, it =>
    { key := match it.key with
        | .ident id => .ident (eraseD id)
        | .keyExpr e => .keyExpr (eraseE n e)
      assign := it.assign
      value := eraseE n it.value
      term := it.term }

def eraseForExpr : Nat → ForExprF Expression → ForExprF Expression
  | 0, f => f
  | n + 1, f =>
    { intro := { keyVar := f.intro.keyVar.map eraseD
                 valVar := eraseD f.intro.valVar
                 coll := eraseE n f.intro.coll
                 d := f.intro.d
                 sp := none }
      keyExpr := f.keyExpr.map (eraseE n)
      valExpr := eraseE n f.valExpr
      grouping := f.grouping
      cond := f.cond.map (fun c => { e := eraseE n c.e, d := c.d, sp := none }) }

def eraseFuncArgs : Nat → FuncArgsF Expression → FuncArgsF Expression
  | 0, a => a
  | n + 1, a =>
    { a with args := a.args.map (eraseE n), sp := none }

def eraseTravOp : Nat → D (TravOp Expression) → D (TravOp Expression)
  | 0, x => x
  | n + 1, x =>
    { v := match x.v with
        | .attrSplat s => .attrSplat (eraseD s)
        | .fullSplat s => .fullSplat (eraseD s)
        | .getAttr id => .getAttr (eraseD id)
        | .legacyIndex k => .legacyIndex (eraseD k)
        | .index e => .index (eraseE n e)
      d := x.d
      sp := none }

end

/-! ## The renderer

Modelled from the spec (§1, §3): rendering reproduces the input from the
recorded decorations, lexical reprs, markers and flags; it reads no spans,
since after despan the tree must not depend on the input buffer. -/

def renderRS : RawString → Chars
  | .owned s => s
  | .fromSpan _ _ => []

def renderOptRS : Option RawString → Chars
  | some r => renderRS r
  | none => []

def renderD (x : D Chars) : Chars :=
  renderOptRS x.d.pre ++ x.v ++ renderOptRS x.d.suf

def renderUnOp : UnOp → Chars
  | .neg => chars "-"
  | .not => chars "!"

def renderBinOp : BinOp → Chars
  | .eq => chars "=="
  | .notEq => chars "!="
  | .less => chars "<"
  | .lessEq => chars "<="
  | .greater => chars ">"
  | .greaterEq => chars ">="
  | .plus => chars "+"
  | .minus => chars "-"
  | .mul => chars "*"
  | .div => chars "/"
  | .mod => chars "%"
  | .and => chars "&&"
  | .or => chars "||"

def renderAssign : OVAssign → Chars
  | .equals => chars "="
  | .colon => chars ":"

def renderTerm : OVTerm → Chars
  | .none => []
  | .comma => chars ","
  | .newline => chars "\n"

mutual

def renderE : Nat → Expression → Chars
  | 0, _ => []
  | n + 1, e =>
    match e with
    | .nullE d _ => renderOptRS d.pre ++ chars "null" ++ renderOptRS d.suf
    | .boolE b d _ =>
      renderOptRS d.pre ++ (if b then chars "true" else chars "false") ++ renderOptRS d.suf
    | .numE _ rep d _ => renderOptRS d.pre ++ renderOptRS rep ++ renderOptRS d.suf
    | .strE s d _ => renderOptRS d.pre ++ '"' :: s ++ ['"'] ++ renderOptRS d.suf
    | .varE id d _ => renderOptRS d.pre ++ id ++ renderOptRS d.suf
    | .tmplE es d _ =>
      renderOptRS d.pre ++ '"' :: (es.map (renderTElem n)).flatten ++ ['"'] ++ renderOptRS d.suf
    | .heredocE dl ind es _ tr d _ =>
      renderOptRS d.pre ++ chars "<<" ++ (if ind then chars "-" else []) ++ dl ++ chars "\n" ++
        (es.map (renderTElem n)).flatten ++ renderRS tr ++ dl ++ renderOptRS d.suf
    | .parenE inner d _ =>
      renderOptRS d.pre ++ '(' :: renderE n inner ++ [')'] ++ renderOptRS d.suf
    | .arrE items tc tr d _ =>
      renderOptRS d.pre ++ '[' :: (List.intercalate (chars ",") (items.map (renderE n))) ++
        (if tc then chars "," else []) ++ renderRS tr ++ [']'] ++ renderOptRS d.suf
    | .objE items tr d _ =>
      renderOptRS d.pre ++ '\x7b' :: (items.map (renderOItem n)).flatten ++
        renderRS tr ++ ['\x7d'] ++ renderOptRS d.suf
    | .forE f d _ => renderOptRS d.pre ++ renderForExpr n f ++ renderOptRS d.suf
    | .condE c t f d _ =>
      renderOptRS d.pre ++ renderE n c ++ chars "?" ++ renderE n t ++ chars ":" ++
        renderE n f ++ renderOptRS d.suf
    | .funcE id args d _ =>
      renderOptRS d.pre ++ renderD id ++ renderFuncArgs n args ++ renderOptRS d.suf
    | .unE op e1 d _ =>
      renderOptRS d.pre ++ renderUnOp op.v ++ renderE n e1 ++ renderOptRS d.suf
    | .binE l op r d _ =>
      renderOptRS d.pre ++ renderE n l ++ renderBinOp op.v ++ renderE n r ++ renderOptRS d.suf
    | .travE e1 ops d _ =>
      renderOptRS d.pre ++ renderE n e1 ++ (ops.map (renderTravOp n)).flatten ++ renderOptRS d.suf

def renderTElem : Nat → TElem Expression → Chars
  | 0, _ => []
  | n + 1, t =>
    match t with
    | .lit s _ => s
    | .interp e sL sR _ =>
      chars "$\x7b" ++ (if sL then chars "~" else []) ++ renderE n e ++
        (if sR then chars "~" else []) ++ chars "\x7d"
    | .dirIf cond thenT elseT strips _ =>
      chars "%\x7bif" ++ renderE n cond ++ chars "\x7d" ++
        (thenT.map (renderTElem n)).flatten ++
        (match elseT with
         | some es =>
           chars "%\x7belse\x7d" ++ (es.map (renderTElem n)).flatten
         | none => []) ++
        chars "%\x7bendif\x7d" ++ (if strips.isEmpty then [] else [])
    | .dirFor kv vv coll body _ _ =>
      chars "%\x7bfor" ++
        (match kv with
         | some k => renderD k ++ chars ","
         | none => []) ++ renderD vv ++ chars "in" ++ renderE n coll ++ chars "\x7d" ++
        (body.map (renderTElem n)).flatten ++ chars "%\x7bendfor\x7d"

def renderOItem : Nat → OItem Expression → Chars
  | 0, _ => []
  | n + 1, it =>
    (match it.key with
     | .ident id => renderD id
     | .keyExpr e => renderE n e) ++
    renderAssign it.assign ++ renderE n it.value ++ renderTerm it.term

def renderForExpr : Nat → ForExprF Expression → Chars
  | 0, _ => []
  | n + 1, f =>
    (if f.keyExpr.isSome then chars "\x7b" else chars "[") ++
      renderOptRS f.intro.d.pre ++ chars "for" ++
      (match f.intro.keyVar with
       | some k => renderD k ++ chars ","
       | none => []) ++ renderD f.intro.valVar ++ chars "in" ++
      renderE n f.intro.coll ++ chars ":" ++
      (match f.keyExpr with
       | some k => renderE n k ++ chars "=>"
       | none => []) ++ renderE n f.valExpr ++
      (if f.grouping then chars "..." else []) ++
      (match f.cond with
       | some c => renderOptRS c.d.pre ++ chars "if" ++ renderE n c.e
       | none => []) ++
      (if f.keyExpr.isSome then chars "\x7d" else chars "]")

def renderFuncArgs : Nat → FuncArgsF Expression → Chars
  | 0, _ => []
  | n + 1, a =>
    renderOptRS a.d.pre ++ '(' :: (List.intercalate (chars ",") (a.args.map (renderE n))) ++
      (if a.expandFinal then chars "..." else if a.trailingComma then chars "," else []) ++
      renderRS a.trailing ++ [')'] ++ renderOptRS a.d.suf

def renderTravOp : Nat → D (TravOp Expression) → Chars
  | 0, _ => []
  | n + 1, x =>
    renderOptRS x.d.pre ++
      (match x.v with
       | .attrSplat s => '.' :: renderOptRS s.d.pre ++ chars "*" ++ renderOptRS s.d.suf
       | .getAttr id => '.' :: renderD id
       | .legacyIndex k =>
         '.' :: renderOptRS k.d.pre ++ chars (toString k.v) ++ renderOptRS k.d.suf
       | .fullSplat s =>
         '[' :: renderOptRS s.d.pre ++ chars "*" ++ renderOptRS s.d.suf ++ [']']
       | .index e => '[' :: renderE n e ++ [']']) ++
      renderOptRS x.d.suf

end

/-- `parse_body`: parse a complete body, then despan (`mod.rs`). -/
def parseBody (s : Chars) : Except Err BodyS :=
  (parseComplete (bodyP (fuelFor s)) s).map (despanBody (fuelFor s) s)

/-- `parse_expr`: parse a complete expression, then despan (`mod.rs`). -/
def parseExpr (s : Chars) : Except Err Expression :=
  (parseComplete (exprP (fuelFor s)) s).map (despanE (fuelFor s) s)

/-- `parse_template`: parse a complete template, then despan (`mod.rs`). -/
def parseTemplate (s : Chars) : Except Err TemplateS :=
  (parseComplete (templateTopP (fuelFor s)) s).map (despanTemplate (fuelFor s) s)

/-! ## Projections used by the claim theorems -/

/-- Did the parse succeed? -/
def resOk {α : Type} : Except Err α → Bool
  | .ok _ => true
  | .error _ => false

/-- Lift a property of the result value over a parse result; a failed parse
satisfies nothing. -/
def resProp {α : Type} (Q : α → Prop) : Except Err α → Prop
  | .ok a => Q a
  | .error _ => False

/-- Is the parsed expression a unary operation? -/
def isUnaryRes : Except Err Expression → Bool
  | .ok (.unE ..) => true
  | _ => false

/-- The repr of a parsed numeric literal. -/
def numReprOf : Except Err Expression → Option RawString
  | .ok (.numE _ rep _ _) => rep
  | _ => none

/-- The function name of a parsed function call. -/
def funcNameOf : Except Err Expression → Option Chars
  | .ok (.funcE id _ _ _) => some id.v
  | _ => none

/-- The trailing-comma and expand-final flags of a parsed call's arguments. -/
def funcFlagsOf : Except Err Expression → Option (Bool × Bool)
  | .ok (.funcE _ a _ _) => some (a.trailingComma, a.expandFinal)
  | _ => none

/-- Was a single-element array with a function-call element parsed, and with
which callee? -/
def arrFuncNameOf : Except Err Expression → Option Chars
  | .ok (.arrE [.funcE id _ _ _] _ _ _ _) => some id.v
  | _ => none

/-- Is the parsed expression a for-comprehension? -/
def isForRes : Except Err Expression → Bool
  | .ok (.forE ..) => true
  | _ => false

/-- Key text, assignment marker and value terminator of each object entry of
the single attribute of a parsed body. -/
def objShapeOf : Except Err BodyS → Option (List (Chars × OVAssign × OVTerm))
  | .ok b =>
    match b.sts with
    | [.attr _ (.objE items _ _ _) _ _] =>
      some (items.map (fun it =>
        ((match it.key with
          | .ident id => id.v
          | .keyExpr _ => []), it.assign, it.term)))
    | _ => none
  | _ => none

/-- The attribute key of a structure, if it is an attribute. -/
def sKey : StructureS → Option Chars
  | .attr key _ _ _ => some key.v
  | .block .. => none

/-- The attribute keys of a list of structures, in order. -/
def attrKeys (sts : List StructureS) : List Chars :=
  sts.filterMap sKey

mutual

/-- Attribute keys are pairwise distinct at every body level. -/
inductive BodyOk : BodyS → Prop where
  | mk : ∀ b, (attrKeys b.sts).Nodup → (∀ s, s ∈ b.sts → StructOk s) → BodyOk b

inductive StructOk : StructureS → Prop where
  | attr : ∀ k v d sp, StructOk (.attr k v d sp)
  | block : ∀ id ls body d sp, BodyOk body → StructOk (.block id ls body d sp)

end

/-! ## Claim theorems -/

/-- C4 counterexample: the claim says `- 1` (minus, space, digit) parses as
a unary negation applied to `1`; in fact `neg_number` accepts horizontal
trivia between the sign and the digits, so `- 1` parses as a numeric
literal with value `-1` and repr `"- 1"`, not as a unary operation. -/
theorem c4_counterexample :
    parseExpr (chars "- 1") =
      .ok (.numE ⟨-1, 0⟩ (some (.owned (chars "- 1"))) {} (some (0, 3))) ∧
    isUnaryRes (parseExpr (chars "- 1")) = false :=
  ⟨rfl, rfl⟩

/-- C4 (amended): `-1` and `- 1` both parse as numeric literals of value
`-1`, with reprs `"-1"` and `"- 1"` respectively, so the two trees remain
distinguishable; a unary negation node arises only when no digit follows the
optional horizontal trivia after `-`, as in `-x`. -/
theorem c4_amended :
    parseExpr (chars "-1") =
      .ok (.numE ⟨-1, 0⟩ (some (.owned (chars "-1"))) {} (some (0, 2))) ∧
    parseExpr (chars "- 1") =
      .ok (.numE ⟨-1, 0⟩ (some (.owned (chars "- 1"))) {} (some (0, 3))) ∧
    numReprOf (parseExpr (chars "-1")) ≠ numReprOf (parseExpr (chars "- 1")) ∧
    parseExpr (chars "-x") =
      .ok (.unE ⟨.neg, some (0, 1)⟩ (.varE (chars "x") { pre := some (.owned []) } none)
        {} (some (0, 2))) :=
  ⟨rfl, rfl, by decide, rfl⟩

/-- C1: the parser maps both CRLF and LF object-value terminators to
`ObjectValueTerminator::Newline` and records the CR byte nowhere, so the
despanned trees of `{a = 1\r\n}` and `{a = 1\n}` agree up to node spans;
any renderer reading only the tree's text content emits the same output for
both distinct inputs, and the modelled renderer reproduces only the LF
form.  Round-tripping is therefore not the identity on the CRLF input. -/
theorem c1_crlf_lossy :
    (parseExpr (chars "\x7ba = 1\r\n\x7d")).map (eraseE 1000) =
      (parseExpr (chars "\x7ba = 1\n\x7d")).map (eraseE 1000) ∧
    chars "\x7ba = 1\r\n\x7d" ≠ chars "\x7ba = 1\n\x7d" ∧
    (parseExpr (chars "\x7ba = 1\r\n\x7d")).map (renderE 1000) =
      .ok (chars "\x7ba = 1\n\x7d") ∧
    resOk (parseExpr (chars "\x7ba = 1\r\n\x7d")) = true :=
  ⟨rfl, by decide, rfl, rfl⟩

/-- C8: `y = {a = 1, b: 2}` parses to an object with exactly two entries in
source order; the first records `Equals` and terminator `Comma`, the second
`Colon` and terminator `None`. -/
theorem c8_object_entries :
    objShapeOf (parseBody (chars "y = \x7ba = 1, b: 2\x7d")) =
      some [(chars "a", .equals, .comma), (chars "b", .colon, OVTerm.none)] :=
  rfl

/-- C9: `null`, `true`, `false` followed by an argument list parse as
function calls named by the reserved word; without an argument list they
parse as literal nodes. -/
theorem c9_reserved_word_calls :
    funcNameOf (parseExpr (chars "null(1)")) = some (chars "null") ∧
    parseExpr (chars "null") = .ok (.nullE {} (some (0, 4))) ∧
    funcNameOf (parseExpr (chars "true (1)")) = some (chars "true") ∧
    parseExpr (chars "true") = .ok (.boolE true {} (some (0, 4))) ∧
    funcNameOf (parseExpr (chars "false(x)")) = some (chars "false") ∧
    parseExpr (chars "false") = .ok (.boolE false {} (some (0, 5))) :=
  ⟨rfl, rfl, rfl, rfl, rfl, rfl⟩

/-- C6: after an expression term, a `/` that begins a comment is never taken
as a division operator: the driver loop stops whenever the two-byte
lookahead after the provisional trivia is `//` or `/*`, and
`a/*comment*/+b` parses as the binary operation `a + b` with the block
comment attached as the left operand's suffix trivia. -/
theorem c6_comment_not_division :
    parseExpr (chars "a/*comment*/+b") =
      .ok (.binE (.varE (chars "a") { suf := some (.owned (chars "/*comment*/")) } (some (0, 1)))
        ⟨.plus, some (12, 13)⟩
        (.varE (chars "b") { pre := some (.owned []) } (some (13, 14))) {} none) ∧
    (∀ (n : Nat) (st : EState) (i : In) (b : Char) (r : Chars),
      (spScan i).rest = '/' :: b :: r → b = '/' ∨ b = '*' →
      exprInnerLoop (n + 1) st i = .ok st i) := by
  refine ⟨rfl, ?_⟩
  intro n st i b r hrest hb
  unfold exprInnerLoop
  rw [hrest]
  rcases hb with rfl | rfl <;> simp

/-- C6 witness: the driver loop stops (rewinding) before a line comment. -/
theorem c6_comment_not_division_witness :
    exprInnerLoop 1 {} ⟨chars " //x", 0⟩ = .ok {} ⟨chars " //x", 0⟩ :=
  c6_comment_not_division.2 0 {} ⟨chars " //x", 0⟩ '/' (chars "x") rfl (Or.inl rfl)

/-- The decision `for_expr_or_items` makes, stated directly on the input:
after full trivia, the literal `for` followed by one of space, tab, `#`,
`/`. -/
def forAhead (i : In) : Bool :=
  match (wsScan i).rest with
  | c1 :: c2 :: c3 :: c :: _ =>
    c1 = 'f' && c2 = 'o' && c3 = 'r' && (c = ' ' || c = '\t' || c = '#' || c = '/')
  | _ => false

/-- C5: inside `[...]`/`{...}` the for-comprehension branch is taken exactly
when the lookahead after leading trivia is the literal `for` followed by one
of space, tab, `#`, `/`; hence `format(x)` inside brackets parses as a
function-call element, never as a comprehension, while `for` followed by a
space starts one. -/
theorem c5_for_lookahead :
    (∀ {α : Type} (f g : P α) (i : In),
      forExprOrItems f g i = if forAhead i then f i else g i) ∧
    arrFuncNameOf (parseExpr (chars "[format(x)]")) = some (chars "format") ∧
    isForRes (parseExpr (chars "[format(x)]")) = false ∧
    isForRes (parseExpr (chars "[for i in x: i]")) = true ∧
    resOk (parseExpr (chars "[forx]")) = true := by
  refine ⟨?_, rfl, rfl, rfl, rfl⟩
  intro α f g i
  unfold forExprOrItems peekForP forAhead ptag poneOf
  rcases h : (wsScan i).rest with _ | ⟨c1, _ | ⟨c2, _ | ⟨c3, _ | ⟨c4, r⟩⟩⟩⟩ <;>
    simp [h, chars, List.isPrefixOf, In.adv, beq_iff_eq]
  · by_cases h1 : 'f' = c1 ∧ 'o' = c2 ∧ 'r' = c3
    · rw [if_pos h1]
    · rw [if_neg h1]
  · by_cases h1 : c1 = 'f' <;> by_cases h2 : c2 = 'o' <;> by_cases h3 : c3 = 'r' <;>
      simp [h1, h2, h3, eq_comm] <;>
      by_cases h4 : c4 = ' ' ∨ c4 = '\t' ∨ c4 = '#' ∨ c4 = '/' <;>
      simp [h4] <;> tauto

/-- Inversion for `pmap`. -/
theorem pmap_ok {α β : Type} (f : α → β) (p : P α) (i i' : In) (b : β)
    (h : pmap f p i = .ok b i') : ∃ a, p i = .ok a i' ∧ b = f a := by
  unfold pmap at h
  split at h
  · rename_i a ii heq
    cases h
    exact ⟨a, heq, rfl⟩
  · cases h
  · cases h

/-- C7: a function-call argument list records a trailing comma or a trailing
`...` but never both; arguments may not begin with `,`, `.` or `)`. -/
theorem c7_trailers :
    (∀ (n : Nat) (i : In) (fa : FuncArgsF Expression) (i' : In),
      funcArgsP n i = .ok fa i' → ¬(fa.trailingComma = true ∧ fa.expandFinal = true)) ∧
    funcFlagsOf (parseExpr (chars "f(a, b,)")) = some (true, false) ∧
    funcFlagsOf (parseExpr (chars "f(a, b...)")) = some (false, true) ∧
    funcFlagsOf (parseExpr (chars "f(a, b)")) = some (false, false) ∧
    resOk (parseExpr (chars "f(a...,)")) = false ∧
    resOk (parseExpr (chars "f(a,...)")) = false ∧
    resOk (parseExpr (chars "f(,1)")) = false ∧
    resOk (parseExpr (chars "f(.x)")) = false := by
  refine ⟨?_, rfl, rfl, rfl, rfl, rfl, rfl, rfl⟩
  intro n i fa i' h
  match n with
  | 0 => simp [funcArgsP, fuelCut] at h
  | Nat.succ m =>
    unfold funcArgsP at h
    split at h
    case _ =>
      split at h
      case _ =>
        split at h
        case _ =>
          obtain ⟨a, _, hfa⟩ := pmap_ok _ _ _ _ _ h
          subst hfa
          split <;> simp
        case _ => cases h
        case _ => cases h
      case _ => cases h
      case _ => cases h
    case _ => cases h
    case _ => cases h

/-- C7 witness: the theorem applied to the concrete argument list `(1)`. -/
theorem c7_trailers_witness :
    (match funcArgsP 64 ⟨chars "(1)", 0⟩ with
     | .ok fa _ => ¬(fa.trailingComma = true ∧ fa.expandFinal = true)
     | _ => False) :=
  c7_trailers.1 64 ⟨chars "(1)", 0⟩ _ _ rfl

/-- Inversion for `Except.map`. -/
theorem except_map_ok {α β : Type} (f : α → β) (x : Except Err α) (b : β)
    (h : x.map f = .ok b) : ∃ a, x = .ok a ∧ b = f a := by
  cases x with
  | ok a =>
    refine ⟨a, rfl, ?_⟩
    simp [Except.map] at h
    exact h.symm
  | error e => simp [Except.map] at h

/-- A successful `parse_complete` means the inner parser consumed the whole
input. -/
theorem parseComplete_ok {α : Type} (p : P α) (s : Chars) (a : α)
    (h : parseComplete p s = .ok a) : ∃ i', p ⟨s, 0⟩ = .ok a i' ∧ i'.rest = [] := by
  unfold parseComplete at h
  split at h
  · rename_i a' i hp
    rcases hr : i.rest with _ | ⟨c, r⟩
    · simp [peof, hr] at h
      subst h
      exact ⟨i, hp, hr⟩
    · simp [peof, hr] at h
  · cases h
  · cases h

/-- Trailing garbage makes `parse_complete` fail. -/
theorem parseComplete_garbage {α : Type} (p : P α) (s : Chars) (a : α) (i' : In)
    (hp : p ⟨s, 0⟩ = .ok a i') (hr : i'.rest ≠ []) :
    ∃ e, parseComplete p s = .error e := by
  unfold parseComplete
  rw [hp]
  rcases hr2 : i'.rest with _ | ⟨c, r⟩
  · exact absurd hr2 hr
  · simp [peof, hr2]

/-- C3: each public entry point succeeds only when the top-level production
consumes the entire input (anything the inner parser leaves over, `eof`
rejects), and each returns the despanned form of the raw parse result. -/
theorem c3_complete_and_despan :
    (∀ {α : Type} (p : P α) (s : Chars) (a : α),
      parseComplete p s = .ok a → ∃ i', p ⟨s, 0⟩ = .ok a i' ∧ i'.rest = []) ∧
    (∀ {α : Type} (p : P α) (s : Chars) (a : α) (i' : In),
      p ⟨s, 0⟩ = .ok a i' → i'.rest ≠ [] → ∃ e, parseComplete p s = .error e) ∧
    (∀ (s : Chars) (b : BodyS), parseBody s = .ok b →
      ∃ raw i', bodyP (fuelFor s) ⟨s, 0⟩ = .ok raw i' ∧ i'.rest = [] ∧
        b = despanBody (fuelFor s) s raw) ∧
    (∀ (s : Chars) (e : Expression), parseExpr s = .ok e →
      ∃ raw i', exprP (fuelFor s) ⟨s, 0⟩ = .ok raw i' ∧ i'.rest = [] ∧
        e = despanE (fuelFor s) s raw) ∧
    (∀ (s : Chars) (t : TemplateS), parseTemplate s = .ok t →
      ∃ raw i', templateTopP (fuelFor s) ⟨s, 0⟩ = .ok raw i' ∧ i'.rest = [] ∧
        t = despanTemplate (fuelFor s) s raw) := by
  refine ⟨fun p s a h => parseComplete_ok p s a h,
    fun p s a i' hp hr => parseComplete_garbage p s a i' hp hr, ?_, ?_, ?_⟩
  · intro s b h
    obtain ⟨raw, hx, hb⟩ := except_map_ok _ _ _ h
    obtain ⟨i', hp, hr⟩ := parseComplete_ok _ _ _ hx
    exact ⟨raw, i', hp, hr, hb⟩
  · intro s e h
    obtain ⟨raw, hx, hb⟩ := except_map_ok _ _ _ h
    obtain ⟨i', hp, hr⟩ := parseComplete_ok _ _ _ hx
    exact ⟨raw, i', hp, hr, hb⟩
  · intro s t h
    obtain ⟨raw, hx, hb⟩ := except_map_ok _ _ _ h
    obtain ⟨i', hp, hr⟩ := parseComplete_ok _ _ _ hx
    exact ⟨raw, i', hp, hr, hb⟩

/-- C3 witness: instances at concrete inputs — a fully consumed body, an
expression with trailing garbage rejected, and a template. -/
theorem c3_complete_and_despan_witness :
    (match parseBody (chars "a = 1") with
     | .ok b => ∃ raw i', bodyP (fuelFor (chars "a = 1")) ⟨chars "a = 1", 0⟩ = .ok raw i' ∧
         i'.rest = [] ∧ b = despanBody (fuelFor (chars "a = 1")) (chars "a = 1") raw
     | .error _ => False) ∧
    (∃ e, parseComplete (exprP (fuelFor (chars "1 x"))) (chars "1 x") = .error e) ∧
    (match parseTemplate (chars "a$\x7bx\x7db") with
     | .ok t => ∃ raw i',
         templateTopP (fuelFor (chars "a$\x7bx\x7db")) ⟨chars "a$\x7bx\x7db", 0⟩ = .ok raw i' ∧
         i'.rest = [] ∧
         t = despanTemplate (fuelFor (chars "a$\x7bx\x7db")) (chars "a$\x7bx\x7db") raw
     | .error _ => False) :=
  ⟨c3_complete_and_despan.2.2.1 _ _ rfl,
   c3_complete_and_despan.2.1 (exprP (fuelFor (chars "1 x"))) (chars "1 x") _ _ rfl
     (by decide),
   c3_complete_and_despan.2.2.2.2 _ _ rfl⟩

/-! ## Lemmas for the attribute-uniqueness invariant (C2) -/

theorem sKey_setDecor (s : StructureS) (d : Decor) : sKey (structSetDecor s d) = sKey s := by
  cases s <;> rfl

theorem structOk_setDecor (s : StructureS) (d : Decor) :
    StructOk (structSetDecor s d) ↔ StructOk s := by
  cases s with
  | attr k v d0 sp => exact ⟨fun _ => .attr .., fun _ => .attr ..⟩
  | block id ls body d0 sp =>
    constructor
    · rintro (_ | ⟨_, _, _, _, _, hb⟩)
      exact .block _ _ _ _ _ hb
    · rintro (_ | ⟨_, _, _, _, _, hb⟩)
      exact .block _ _ _ _ _ hb

theorem attrKeys_append (l : List StructureS) (s : StructureS) :
    attrKeys (l ++ [s]) = attrKeys l ++ (sKey s).toList := by
  simp [attrKeys, List.filterMap_append, Option.toList]
  cases h : sKey s <;> simp [h, List.filterMap, Option.toList]

theorem sKey_setSuf (s : StructureS) (r : RawString) : sKey (setSuf s r) = sKey s :=
  sKey_setDecor s _

theorem sKey_setPre (s : StructureS) (r : RawString) : sKey (setPre s r) = sKey s :=
  sKey_setDecor s _

theorem structOk_setSuf (s : StructureS) (r : RawString) :
    StructOk (setSuf s r) ↔ StructOk s :=
  structOk_setDecor s _

theorem structOk_setPre (s : StructureS) (r : RawString) :
    StructOk (setPre s r) ↔ StructOk s :=
  structOk_setDecor s _

theorem attrKeys_mapLast (g : StructureS → StructureS)
    (hg : ∀ x, sKey (g x) = sKey x) (l : List StructureS) :
    attrKeys (mapLast g l) = attrKeys l := by
  induction l with
  | nil => rfl
  | cons a rest ih =>
    cases rest with
    | nil => simp [mapLast, attrKeys, List.filterMap, hg]
    | cons b rest' =>
      have : mapLast g (a :: b :: rest') = a :: mapLast g (b :: rest') := rfl
      rw [this]
      simp only [attrKeys, List.filterMap] at ih ⊢
      cases h : sKey a <;> simp [h, ih]

theorem mem_mapLast {α : Type} (g : α → α) (Q : α → Prop)
    (hQ : ∀ x, Q x → Q (g x)) (l : List α) (hl : ∀ x, x ∈ l → Q x) :
    ∀ y, y ∈ mapLast g l → Q y := by
  induction l with
  | nil => intro y hy; cases hy
  | cons a rest ih =>
    cases rest with
    | nil =>
      intro y hy
      rcases List.mem_singleton.mp hy with rfl
      exact hQ a (hl a (by simp))
    | cons b rest' =>
      intro y hy
      have : mapLast g (a :: b :: rest') = a :: mapLast g (b :: rest') := rfl
      rw [this] at hy
      rcases List.mem_cons.mp hy with rfl | hy'
      · exact hl y (by simp)
      · exact ih (fun x hx => hl x (List.mem_cons_of_mem _ hx)) y hy'

/-- The body-state invariant: the attribute keys collected so far are
distinct, all of them are in the key set, and every collected structure has
duplicate-free nested bodies. -/
def BInv (st : BState) : Prop :=
  (attrKeys st.sts).Nodup ∧ (∀ k, k ∈ attrKeys st.sts → k ∈ st.keys) ∧
  (∀ s, s ∈ st.sts → StructOk s)

theorem inv_empty : BInv {} := by
  refine ⟨List.nodup_nil, ?_, ?_⟩ <;> intro x hx <;> cases hx

theorem inv_onWs (st : BState) (sp : Span) : BInv (st.onWs sp) ↔ BInv st := Iff.rfl

theorem inv_onLineEnding (st : BState) (h : BInv st) : BInv st.onLineEnding := by
  obtain ⟨h1, h2, h3⟩ := h
  unfold BState.onLineEnding
  split
  case _ st' p hp =>
    refine ⟨?_, ?_, ?_⟩
    · rw [attrKeys_mapLast _ (fun x => sKey_setSuf x _)]
      exact h1
    · intro k hk
      rw [attrKeys_mapLast _ (fun x => sKey_setSuf x _)] at hk
      exact h2 k hk
    · exact mem_mapLast _ _ (fun x hx => (structOk_setSuf x _).mpr hx) _ h3
  case _ => exact ⟨h1, h2, h3⟩

theorem onStructure_eq (st : BState) (s : StructureS) :
    st.onStructure s =
      { sts := st.sts ++ [(match st.pend with
          | some p => setPre s (.fromSpan p.1 p.2)
          | none => s)],
        keys := st.keys, pend := none } := rfl

/-- Appending a fresh-keyed attribute structure preserves the invariant. -/
theorem inv_append_attr (st : BState) (kv : Chars) (s' : StructureS) (pd : Option Span)
    (hkey : sKey s' = some kv) (hok : StructOk s')
    (h : BInv st) (hk : kv ∉ st.keys) :
    BInv { sts := st.sts ++ [s'], keys := kv :: st.keys, pend := pd } := by
  obtain ⟨h1, h2, h3⟩ := h
  have hnotin : kv ∉ attrKeys st.sts := fun hmem => hk (h2 _ hmem)
  refine ⟨?_, ?_, ?_⟩
  · rw [show ({ sts := st.sts ++ [s'], keys := kv :: st.keys, pend := pd } : BState).sts =
        st.sts ++ [s'] from rfl, attrKeys_append, hkey]
    simp [List.nodup_append, h1, hnotin]
  · intro k hk2
    rw [show ({ sts := st.sts ++ [s'], keys := kv :: st.keys, pend := pd } : BState).sts =
        st.sts ++ [s'] from rfl, attrKeys_append, hkey] at hk2
    simp only [Option.toList, List.mem_append, List.mem_singleton] at hk2
    rcases hk2 with hmem | rfl
    · exact List.mem_cons_of_mem _ (h2 _ hmem)
    · exact List.mem_cons_self _ _
  · intro s hs
    rcases List.mem_append.mp hs with hmem | hone
    · exact h3 s hmem
    · rcases List.mem_singleton.mp hone with rfl
      exact hok

/-- Appending a block structure preserves the invariant. -/
theorem inv_append_block (st : BState) (s' : StructureS) (pd : Option Span)
    (hkey : sKey s' = none) (hok : StructOk s') (h : BInv st) :
    BInv { sts := st.sts ++ [s'], keys := st.keys, pend := pd } := by
  obtain ⟨h1, h2, h3⟩ := h
  refine ⟨?_, ?_, ?_⟩
  · rw [show ({ sts := st.sts ++ [s'], keys := st.keys, pend := pd } : BState).sts =
        st.sts ++ [s'] from rfl, attrKeys_append, hkey]
    simpa using h1
  · intro k hk2
    rw [show ({ sts := st.sts ++ [s'], keys := st.keys, pend := pd } : BState).sts =
        st.sts ++ [s'] from rfl, attrKeys_append, hkey] at hk2
    simp only [Option.toList, List.append_nil] at hk2
    exact h2 _ hk2
  · intro s hs
    rcases List.mem_append.mp hs with hmem | hone
    · exact h3 s hmem
    · rcases List.mem_singleton.mp hone with rfl
      exact hok

/-- `on_structure` with a fresh-keyed attribute preserves the invariant. -/
theorem inv_onStructure_attr (st : BState) (kv : Chars) (d0 : Decor) (sp0 : Option Span)
    (v : Expression) (dd : Decor) (spp : Option Span)
    (h : BInv st) (hk : kv ∉ st.keys) :
    BInv ((st.addKey kv).onStructure (.attr ⟨kv, d0, sp0⟩ v dd spp)) := by
  rw [onStructure_eq]
  split
  · refine inv_append_attr st kv _ none ?_ ?_ h hk
    · exact (sKey_setPre _ _).trans rfl
    · exact (structOk_setPre _ _).mpr (.attr ..)
  · exact inv_append_attr st kv _ none rfl (.attr ..) h hk

/-- `on_structure` with a block whose body is duplicate-free preserves the
invariant. -/
theorem inv_onStructure_block (st : BState) (id : D Chars) (ls : List BlockLabelS)
    (body : BodyS) (dd : Decor) (spp : Option Span)
    (h : BInv st) (hb : BodyOk body) :
    BInv (st.onStructure (.block id ls body dd spp)) := by
  rw [onStructure_eq]
  split
  · refine inv_append_block st _ none ?_ ?_ h
    · exact (sKey_setPre _ _).trans rfl
    · exact (structOk_setPre _ _).mpr (.block _ _ _ _ _ hb)
  · exact inv_append_block st _ none rfl (.block _ _ _ _ _ hb) h

/-- Inversion for `pbind`. -/
theorem pbind_ok {α β : Type} (p : P α) (f : α → P β) (i i' : In) (b : β)
    (h : pbind p f i = .ok b i') : ∃ a j, p i = .ok a j ∧ f a j = .ok b i' := by
  unfold pbind at h
  split at h
  · rename_i a j heq
    exact ⟨a, j, heq, h⟩
  · cases h
  · cases h

/-- Inversion for `prefix_decorated`. -/
theorem prefixDecP_ok {α : Type} [DecorOf α] (t : P Span) (p : P α) (i i' : In) (a : α)
    (h : prefixDecP t p i = .ok a i') :
    ∃ sp j a0, t i = .ok sp j ∧ p j = .ok a0 i' ∧ a = setPre a0 (.fromSpan sp.1 sp.2) := by
  unfold prefixDecP at h
  obtain ⟨sp, j, ht, hf⟩ := pbind_ok _ _ _ _ _ h
  obtain ⟨a0, hp, ha⟩ := pmap_ok _ _ _ _ _ hf
  exact ⟨sp, j, a0, ht, hp, ha⟩

/-- Inversion for `suffix_decorated`. -/
theorem suffixDecP_ok {α : Type} [DecorOf α] (p : P α) (t : P Span) (i i' : In) (a : α)
    (h : suffixDecP p t i = .ok a i') :
    ∃ a0 j sp, p i = .ok a0 j ∧ t j = .ok sp i' ∧ a = setSuf a0 (.fromSpan sp.1 sp.2) := by
  unfold suffixDecP at h
  obtain ⟨a0, j, hp, hf⟩ := pbind_ok _ _ _ _ _ h
  obtain ⟨sp, ht, ha⟩ := pmap_ok _ _ _ _ _ hf
  exact ⟨a0, j, sp, hp, ht, ha⟩

/-- Inversion for `opt`. -/
theorem popt_ok {α : Type} (p : P α) (i i' : In) (v : Option α)
    (h : popt p i = .ok v i') :
    (v = none ∧ i' = i) ∨ ∃ a, p i = .ok a i' ∧ v = some a := by
  unfold popt at h
  split at h
  · rename_i a j heq
    cases h
    exact Or.inr ⟨a, heq, rfl⟩
  · cases h
    exact Or.inl ⟨rfl, rfl⟩
  · cases h

/-- The one-line block attribute parser produces an attribute structure. -/
theorem onelineAttr_shape (n : Nat) (i i' : In) (a : StructureS)
    (h : onelineAttrP n i = .ok a i') : ∃ k v d sp, a = .attr k v d sp := by
  unfold onelineAttrP at h
  split at h
  · split at h
    · cases h
      exact ⟨_, _, _, _, rfl⟩
    · cases h
    · cases h
  · cases h
  · cases h

/-- Despanning does not change attribute keys. -/
theorem sKey_despanStruct (n : Nat) (src : Chars) (s : StructureS) :
    sKey (despanStruct n src s) = sKey s := by
  cases n <;> cases s <;> rfl

theorem attrKeys_map (f : StructureS → StructureS) (hf : ∀ s, sKey (f s) = sKey s) :
    ∀ l : List StructureS, attrKeys (l.map f) = attrKeys l := by
  intro l
  induction l with
  | nil => rfl
  | cons a rest ih =>
    simp only [attrKeys, List.map, List.filterMap] at ih ⊢
    rw [hf a]
    cases h : sKey a <;> simp [ih]

/-- Despanning preserves duplicate-freedom at every level. -/
theorem despan_ok_family : ∀ (n : Nat) (src : Chars),
    (∀ b, BodyOk b → BodyOk (despanBody n src b)) ∧
    (∀ s, StructOk s → StructOk (despanStruct n src s)) := by
  intro n
  induction n with
  | zero => exact fun src => ⟨fun b h => h, fun s h => h⟩
  | succ m ih =>
    intro src
    obtain ⟨ihB, ihS⟩ := ih src
    constructor
    · intro b hb
      cases hb with
      | mk _ h1 h2 =>
        refine BodyOk.mk _ ?_ ?_
        · show (attrKeys (b.sts.map (despanStruct m src))).Nodup
          rw [attrKeys_map _ (sKey_despanStruct m src)]
          exact h1
        · show ∀ s, s ∈ b.sts.map (despanStruct m src) → StructOk s
          intro s hs
          obtain ⟨s0, hs0, rfl⟩ := List.mem_map.mp hs
          exact ihS s0 (h2 s0 hs0)
    · intro s hs
      cases s with
      | attr k v d sp => exact .attr ..
      | block id ls body d sp =>
        cases hs with
        | block _ _ _ _ _ hb => exact .block _ _ _ _ _ (ihB body hb)

/-- `BodyOk` only reads the structure list, so decor updates preserve it. -/
theorem bodyOk_setD (b : BodyS) (d : Decor) : BodyOk (DecorOf.setD b d) ↔ BodyOk b := by
  constructor
  · rintro ⟨_, h1, h2⟩
    exact ⟨_, h1, h2⟩
  · rintro ⟨_, h1, h2⟩
    exact ⟨_, h1, h2⟩


theorem attrKeys_singleton_nodup (s : StructureS) : (attrKeys [s]).Nodup := by
  unfold attrKeys
  cases h : sKey s <;> simp [List.filterMap, h]

theorem palt_ok {α : Type} (p q : P α) (i i' : In) (a : α)
    (h : palt p q i = .ok a i') : p i = .ok a i' ∨ q i = .ok a i' := by
  unfold palt at h
  split at h
  · exact Or.inr h
  · exact Or.inl h

theorem body_family_ok : ∀ n : Nat,
    (∀ i b i', bodyP n i = .ok b i' → BodyOk b) ∧
    (∀ i b i', blockBodyP n i = .ok b i' → BodyOk b) ∧
    (∀ st i st' i', bodyLoopP n st i = .ok st' i' → BInv st → BInv st') ∧
    (∀ st i st' i', bodyItemP n st i = .ok st' i' → BInv st → BInv st') ∧
    (∀ st i st' i', structureP n st i = .ok st' i' → BInv st → BInv st') := by
  intro n
  induction n with
  | zero =>
    refine ⟨?_, ?_, ?_, ?_, ?_⟩
    · intro i b i' h; simp [bodyP, fuelCut] at h
    · intro i b i' h; simp [blockBodyP, fuelCut] at h
    · intro st i st' i' h _; simp [bodyLoopP, fuelCut] at h
    · intro st i st' i' h _; simp [bodyItemP, fuelCut] at h
    · intro st i st' i' h _; simp [structureP, fuelCut] at h
  | succ m ih =>
    obtain ⟨ihBody, ihBlock, ihLoop, ihItem, ihStruct⟩ := ih
    refine ⟨?_, ?_, ?_, ?_, ?_⟩
    · -- bodyP
      intro i b i' h
      unfold bodyP at h
      split at h
      · rename_i st i1 hloop
        simp only [rawWsP, rawStringOf] at h
        cases h
        obtain ⟨h1, _, h3⟩ := ihLoop _ _ _ _ hloop inv_empty
        exact BodyOk.mk _ h1 h3
      · cases h
      · cases h
    · -- blockBodyP
      intro i b i' h
      unfold blockBodyP at h
      split at h
      · rename_i _ i1 hcut
        split at h
        · rename_i body i2 hpalt
          split at h
          · cases h
            rcases palt_ok _ _ _ _ _ hpalt with hml | hol
            · -- multiline branch
              obtain ⟨sp, j, b0, _, hinner, rfl⟩ := prefixDecP_ok _ _ _ _ _ hml
              split at hinner
              · exact (bodyOk_setD _ _).mpr (ihBody _ _ _ hinner)
              · cases hinner
              · cases hinner
            · -- one-line branch
              split at hol
              · rename_i attr i3 hopt
                simp only [rawSpP, rawStringOf] at hol
                cases hol
                rcases popt_ok _ _ _ _ hopt with ⟨rfl, rfl⟩ | ⟨a, hdec, rfl⟩
                · exact BodyOk.mk _ (by simp [attrKeys, List.filterMap])
                    (by intro s hs; cases hs)
                · obtain ⟨a1, j1, sp2, hpd, _, rfl⟩ := suffixDecP_ok _ _ _ _ _ hdec
                  obtain ⟨sp1, j0, a0, _, hoa, rfl⟩ := prefixDecP_ok _ _ _ _ _ hpd
                  obtain ⟨k, v, d0, sp0, rfl⟩ := onelineAttr_shape _ _ _ _ hoa
                  refine BodyOk.mk _ (attrKeys_singleton_nodup _) ?_
                  intro s hs
                  rcases List.mem_singleton.mp hs with rfl
                  exact (structOk_setSuf _ _).mpr ((structOk_setPre _ _).mpr (.attr ..))
              · cases hol
              · cases hol
          · cases h
          · cases h
        · cases h
        · cases h
      · cases h
      · cases h
    · -- bodyLoopP
      intro st i st' i' h hInv
      unfold bodyLoopP at h
      split at h
      · rename_i st1 i1 hitem
        exact ihLoop _ _ _ _ h (ihItem _ _ _ _ hitem hInv)
      · cases h
        exact hInv
      · cases h
    · -- bodyItemP
      intro st i st' i' h hInv
      unfold bodyItemP at h
      simp only [wsSpanP] at h
      split at h
      · rename_i st1 i2 hstruct
        split at h
        · rename_i sufSp i3 hsc
          split at h
          · cases h
            exact inv_onLineEnding _
              ((inv_onWs _ _).mpr (ihStruct _ _ _ _ hstruct hInv))
          · cases h
          · cases h
        · cases h
        · cases h
      · cases h
      · cases h
    · -- structureP
      intro st i st' i' h hInv
      unfold structureP at h
      split at h
      · rename_i c cs
        split at h
        · rename_i hid
          split at h
          · rename_i id i1 hident
            simp only [rawSpP, rawStringOf] at h
            split at h
            · cases h
            · rename_i ch chs hch
              split at h
              · -- attribute
                split at h
                · cases h
                · rename_i hguard
                  split at h
                  · rename_i v i3 hattr
                    cases h
                    refine inv_onStructure_attr _ _ _ _ _ _ _ hInv ?_
                    intro hmem
                    exact hguard (by simpa [BState.isRedefined] using hmem)
                  · cases h
                  · cases h
              · split at h
                · -- unlabeled block
                  split at h
                  · rename_i body i3 hbody
                    cases h
                    exact inv_onStructure_block _ _ _ _ _ _ hInv (ihBlock _ _ _ hbody)
                  · cases h
                  · cases h
                · split at h
                  · -- labeled block
                    split at h
                    · rename_i labels i3 hlab
                      split at h
                      · rename_i body i4 hbody
                        cases h
                        exact inv_onStructure_block _ _ _ _ _ _ hInv (ihBlock _ _ _ hbody)
                      · cases h
                      · cases h
                    · cases h
                    · cases h
                  · cases h
          · cases h
          · cases h
        · cases h
      · cases h

/-- C2: a successful `parse_body` never contains two attributes with the
same key at the same body level (so any input with such a redefinition
fails); the concrete duplicate `a = 1\na = 2\n` fails with the redefinition
error at offset 6 (the start of the redefined attribute); duplicate keys
inside an object expression are accepted. -/
theorem c2_attr_unique :
    (∀ (s : Chars) (b : BodyS), parseBody s = .ok b → BodyOk b) ∧
    parseBody (chars "a = 1\na = 2\n") =
      .error ⟨6, [.expression "attribute",
        .expected (.desc "unique attribute key; found redefined attribute")]⟩ ∧
    resOk (parseExpr (chars "\x7ba = 1, a = 2\x7d")) = true := by
  refine ⟨?_, rfl, rfl⟩
  intro s b h
  obtain ⟨raw, hx, hb⟩ := except_map_ok _ _ _ h
  obtain ⟨i', hp, _⟩ := parseComplete_ok _ _ _ hx
  subst hb
  exact (despan_ok_family _ _).1 _ ((body_family_ok _).1 _ _ _ hp)

/-- C2 witness: the theorem applied to a concrete two-attribute body. -/
theorem c2_attr_unique_witness :
    resProp BodyOk (parseBody (chars "x = 1\ny = 2\n")) :=
  c2_attr_unique.1 (chars "x = 1\ny = 2\n") _ rfl
